import Mathlib

/-!
Verification development for the byte-collection view engine
(linera-views/src/collection_view.rs) and its matching-engine consumer
(examples/matching-engine). Rust sources are shallowly embedded:

* machine integers (u64 prices, u128 token amounts) are `Nat` with explicit
  bounds where overflow matters;
* byte strings are `List Nat` ordered lexicographically (the Mathlib
  `LinearOrder (List Nat)` instance, whose strict order is `List.Lex (· < ·)`,
  which coincides with Rust's `Ord` on byte slices);
* fallible Rust code returns `Except`; a Rust panic (`expect`, `unwrap`,
  `assert!`) is a distinct outcome, modelled as `Option.none` for pure
  helpers and as a dedicated `panicked` constructor for engine calls.
-/

/-! ## Little-endian byte serialization (bcs) of unsigned integers

The matching engine serializes `u64` prices with `bcs::to_bytes`, which
produces exactly 8 little-endian bytes, and then reverses them
(examples/matching-engine/src/lib.rs, `CustomSerialize for PriceAsk/PriceBid`).
-/

/-- Little-endian byte list of `x` on `n` bytes, as produced by bcs for an
`n`-byte unsigned integer. -/
def leBytes : Nat → Nat → List Nat
  | 0, _ => []
  | n + 1, x => x % 256 :: leBytes n (x / 256)

/-- Value of a little-endian byte list, as consumed by bcs deserialization. -/
def leValue : List Nat → Nat
  | [] => 0
  | b :: rest => b + 256 * leValue rest

/-- Embedding of `bcs::to_bytes` on a `u64` value: 8 little-endian bytes. -/
def bcs_to_bytes_u64 (x : Nat) : List Nat := leBytes 8 x

/-- Embedding of `bcs::from_bytes::<u64>`: succeeds only on exactly 8 bytes. -/
def bcs_from_bytes_u64 (bytes : List Nat) : Option Nat :=
  if bytes.length = 8 then some (leValue bytes) else none

/-- Largest `u64` value, `u64::MAX`. -/
def U64_MAX : Nat := 2 ^ 64 - 1

namespace PriceAsk

/-- Embedding of `CustomSerialize::to_custom_bytes` for `PriceAsk`
(lib.rs:233-237): bcs-serialize the price and reverse the bytes. -/
def to_custom_bytes (price : Nat) : List Nat :=
  (bcs_to_bytes_u64 price).reverse

/-- Embedding of `CustomSerialize::from_custom_bytes` for `PriceAsk`
(lib.rs:239-244): reverse the bytes and bcs-deserialize. -/
def from_custom_bytes (short_key : List Nat) : Option Nat :=
  bcs_from_bytes_u64 short_key.reverse

end PriceAsk

namespace PriceBid

/-- Embedding of `CustomSerialize::to_custom_bytes` for `PriceBid`
(lib.rs:262-267): bcs-serialize `u64::MAX - price` and reverse the bytes. -/
def to_custom_bytes (price : Nat) : List Nat :=
  (bcs_to_bytes_u64 (U64_MAX - price)).reverse

/-- Embedding of `CustomSerialize::from_custom_bytes` for `PriceBid`
(lib.rs:269-275): reverse, bcs-deserialize, and subtract from `u64::MAX`. -/
def from_custom_bytes (short_key : List Nat) : Option Nat :=
  (bcs_from_bytes_u64 short_key.reverse).map (fun price_rev => U64_MAX - price_rev)

end PriceBid

/-! ## Checked u128 arithmetic of `Amount` (linera-base/src/data_types.rs) -/

/-- Modulus of the `u128` type wrapped by `Amount`. -/
def U128_MOD : Nat := 2 ^ 128

/-- Embedding of `linera_base::data_types::ArithmeticError`. -/
inductive ArithmeticError where
  | overflow
  | underflow
  deriving DecidableEq, Repr

namespace Amount

/-- Embedding of `Amount::try_mul` (data_types.rs:267-270): checked `u128`
multiplication, `Overflow` error when the product does not fit. -/
def try_mul (a : Nat) (other : Nat) : Except ArithmeticError Nat :=
  if a * other < U128_MOD then .ok (a * other) else .error .overflow

/-- Embedding of `Amount::try_sub` (data_types.rs:212-218): checked
subtraction, `Underflow` error when the subtrahend is larger. -/
def try_sub (a : Nat) (other : Nat) : Except ArithmeticError Nat :=
  if other ≤ a then .ok (a - other) else .error .underflow

end Amount

/-- Embedding of `matching_engine::product_price_amount` (lib.rs:278-280):
`count.try_mul(price).expect("product")`. The `expect` panics on overflow, so
the result is an `Option`, `none` being the panic outcome (the function itself
can never return an error value: its Rust signature returns a plain `Amount`). -/
def product_price_amount (price : Nat) (count : Nat) : Option Nat :=
  (Amount.try_mul count price).toOption

/-! ## Lemmas about the byte encodings -/

theorem leBytes_length (n x : Nat) : (leBytes n x).length = n := by
  induction n generalizing x with
  | zero => rfl
  | succ n ih => simp [leBytes, ih]

theorem leValue_leBytes {n x : Nat} (hx : x < 256 ^ n) :
    leValue (leBytes n x) = x := by
  induction n generalizing x with
  | zero => simp at hx; simp [hx, leBytes, leValue]
  | succ n ih =>
    have hdiv : x / 256 < 256 ^ n := by
      rw [Nat.div_lt_iff_lt_mul (by norm_num : 0 < 256)]
      calc x < 256 ^ (n + 1) := hx
        _ = 256 ^ n * 256 := by rw [pow_succ]
    simp [leBytes, leValue, ih hdiv, Nat.mod_add_div]

theorem leBytes_succ_eq_append {n x : Nat} (hx : x < 256 ^ (n + 1)) :
    leBytes (n + 1) x = leBytes n (x % 256 ^ n) ++ [x / 256 ^ n] := by
  induction n generalizing x with
  | zero =>
    have hx' : x < 256 := by simpa using hx
    simp [leBytes, Nat.mod_eq_of_lt hx']
  | succ n ih =>
    have hdiv : x / 256 < 256 ^ (n + 1) := by
      rw [Nat.div_lt_iff_lt_mul (by norm_num : 0 < 256)]
      calc x < 256 ^ (n + 2) := hx
        _ = 256 ^ (n + 1) * 256 := by rw [pow_succ]
    have hmod1 : (x % 256 ^ (n + 1)) % 256 = x % 256 :=
      Nat.mod_mod_of_dvd x (dvd_pow_self 256 (Nat.succ_ne_zero n))
    have hmod2 : (x % 256 ^ (n + 1)) / 256 = x / 256 % 256 ^ n := by
      rw [pow_succ']
      exact Nat.mod_mul_right_div_self x 256 (256 ^ n)
    have hdd : x / 256 / 256 ^ n = x / 256 ^ (n + 1) := by
      rw [Nat.div_div_eq_div_mul, pow_succ']
    calc leBytes (n + 2) x
        = x % 256 :: leBytes (n + 1) (x / 256) := rfl
      _ = x % 256 :: (leBytes n (x / 256 % 256 ^ n) ++ [x / 256 / 256 ^ n]) := by
          rw [ih hdiv]
      _ = (x % 256 ^ (n + 1)) % 256 ::
            (leBytes n ((x % 256 ^ (n + 1)) / 256) ++ [x / 256 ^ (n + 1)]) := by
          rw [hmod1, hmod2, hdd]
      _ = leBytes (n + 1) (x % 256 ^ (n + 1)) ++ [x / 256 ^ (n + 1)] := rfl

theorem reverse_leBytes_lt {n x y : Nat} (hxy : x < y) (hy : y < 256 ^ n) :
    List.Lex (· < ·) (leBytes n x).reverse (leBytes n y).reverse := by
  induction n generalizing x y with
  | zero => simp at hy; omega
  | succ n ih =>
    have hx : x < 256 ^ (n + 1) := lt_trans hxy hy
    rw [leBytes_succ_eq_append hx, leBytes_succ_eq_append hy]
    simp only [List.reverse_append, List.reverse_cons, List.reverse_nil,
      List.nil_append, List.singleton_append]
    have hle : x / 256 ^ n ≤ y / 256 ^ n := Nat.div_le_div_right (le_of_lt hxy)
    rcases lt_or_eq_of_le hle with hlt | heq
    · exact List.Lex.rel hlt
    · rw [heq]
      apply List.Lex.cons
      have e1 := Nat.div_add_mod x (256 ^ n)
      have e2 := Nat.div_add_mod y (256 ^ n)
      rw [heq] at e1
      have hmodlt : x % 256 ^ n < y % 256 ^ n := by omega
      exact ih hmodlt (Nat.mod_lt y (Nat.pos_pow_of_pos n (by norm_num)))

/-- C3 (part of): strict monotonicity / antitonicity of the two custom price
serializations, and round-trip inversion. Stated over the `u64` domain. -/
theorem price_custom_serialize_monotone_roundtrip
    (a b p : Nat) (hb : b < 2 ^ 64) (hp : p < 2 ^ 64) (hab : a < b) :
    List.Lex (· < ·) (PriceAsk.to_custom_bytes a) (PriceAsk.to_custom_bytes b) ∧
    List.Lex (· < ·) (PriceBid.to_custom_bytes b) (PriceBid.to_custom_bytes a) ∧
    PriceAsk.from_custom_bytes (PriceAsk.to_custom_bytes p) = some p ∧
    PriceBid.from_custom_bytes (PriceBid.to_custom_bytes p) = some p := by
  have h256 : (256 : Nat) ^ 8 = 2 ^ 64 := by norm_num
  refine ⟨?_, ?_, ?_, ?_⟩
  · exact reverse_leBytes_lt hab (by rw [h256]; exact hb)
  · have hsub : U64_MAX - b < U64_MAX - a := by
      simp only [U64_MAX]; omega
    have hbound : U64_MAX - a < 256 ^ 8 := by
      rw [h256]; simp only [U64_MAX]; omega
    exact reverse_leBytes_lt hsub hbound
  · unfold PriceAsk.from_custom_bytes PriceAsk.to_custom_bytes bcs_from_bytes_u64
    rw [List.reverse_reverse]
    unfold bcs_to_bytes_u64
    simp only [leBytes_length, if_true, reduceIte]
    rw [leValue_leBytes (by rw [h256]; exact hp)]
  · unfold PriceBid.from_custom_bytes PriceBid.to_custom_bytes bcs_from_bytes_u64
    rw [List.reverse_reverse]
    unfold bcs_to_bytes_u64
    simp only [leBytes_length, if_true, reduceIte, Option.map_some]
    have hlt : U64_MAX - p < 256 ^ 8 := by rw [h256]; simp only [U64_MAX]; omega
    rw [leValue_leBytes hlt]
    have hple : p ≤ U64_MAX := by simp only [U64_MAX]; omega
    have hback : U64_MAX - (U64_MAX - p) = p := by omega
    simp [hback]

/-- Witness for the C3 theorem at concrete prices 1 < 2. -/
theorem price_custom_serialize_monotone_roundtrip_witness :
    List.Lex (· < ·) (PriceAsk.to_custom_bytes 1) (PriceAsk.to_custom_bytes 2) ∧
    List.Lex (· < ·) (PriceBid.to_custom_bytes 2) (PriceBid.to_custom_bytes 1) ∧
    PriceAsk.from_custom_bytes (PriceAsk.to_custom_bytes 3) = some 3 ∧
    PriceBid.from_custom_bytes (PriceBid.to_custom_bytes 3) = some 3 :=
  price_custom_serialize_monotone_roundtrip 1 2 3 (by norm_num) (by norm_num)
    (by norm_num)

/-! ## Byte collection view (linera-views/src/collection_view.rs)

The view is embedded as a record of its four fields (the context is reduced
to its base key); the `RwLock`/`Mutex` wrappers are concurrency plumbing with
no sequential content and are dropped. Storage is passed explicitly: `load`
takes the value stored under the hash tag, and the key-iteration functions
take the (lexicographically ordered) list of short keys stored under the
index tag. The sub-view type `W` stays abstract; the operations the engine
invokes on sub-views (`load`, `clear`, `flush`) are explicit function
parameters. -/

/-- Values written by a batch `put`: the empty index marker, or a serialized
collection hash. -/
inductive BatchVal where
  | emptyVal
  | hashVal (h : Nat)
  deriving DecidableEq, Repr

/-- Embedding of the three write-batch verbs of `linera_views::batch::Batch`.
The third is `delete_key_prefix` in the source; it is shortened to
`delete_key_pfx` here. -/
inductive BatchOp where
  | put_key_value (key : List Nat) (value : BatchVal)
  | delete_key (key : List Nat)
  | delete_key_pfx (key : List Nat)
  deriving DecidableEq, Repr

/-- Embedding of `linera_views::common::Update`. -/
inductive Update (W : Type) where
  | set (view : W)
  | removed

/-- Modelled from the spec: `MIN_VIEW_TAG` lives in `common.rs`, which is not
among the sources; the spec only requires a fixed implementation-chosen
minimum for the reserved tag range, so it is pinned to 1 here. -/
def MIN_VIEW_TAG : Nat := 1

/-- Embedding of the `KeyTag` enum (collection_view.rs:77-85): three
consecutive tag bytes starting at `MIN_VIEW_TAG`. -/
def KeyTag.index : Nat := MIN_VIEW_TAG

/-- Tag byte for sub-view key spaces. -/
def KeyTag.subview : Nat := MIN_VIEW_TAG + 1

/-- Tag byte for the stored collection hash. -/
def KeyTag.hash : Nat := MIN_VIEW_TAG + 2

/-- Embedding of `ByteCollectionView` (collection_view.rs:44-51). -/
structure ByteCollectionView (W : Type) where
  base_key : List Nat
  delete_storage_first : Bool
  updates : List (List Nat × Update W)
  stored_hash : Option Nat
  hash : Option Nat

namespace ByteCollectionView

variable {W : Type}

/-- Embedding of `Context::base_tag`: append a tag byte to the base key. -/
def base_tag (s : ByteCollectionView W) (tag : Nat) : List Nat :=
  s.base_key ++ [tag]

/-- Embedding of `Context::base_tag_index`: tag byte followed by a short key. -/
def base_tag_index (s : ByteCollectionView W) (tag : Nat) (index : List Nat) :
    List Nat :=
  s.base_key ++ [tag] ++ index

/-- Embedding of `get_index_key` (collection_view.rs:198-200). -/
def get_index_key (s : ByteCollectionView W) (index : List Nat) : List Nat :=
  s.base_tag_index KeyTag.index index

/-- Embedding of `get_subview_key` (collection_view.rs:202-204). -/
def get_subview_key (s : ByteCollectionView W) (index : List Nat) : List Nat :=
  s.base_tag_index KeyTag.subview index

/-- Embedding of `load` (collection_view.rs:98-108): `storage_hash` is the
value the store holds under the hash tag key. -/
def load (base_key : List Nat) (storage_hash : Option Nat) :
    ByteCollectionView W :=
  { base_key := base_key
    delete_storage_first := false
    updates := []
    stored_hash := storage_hash
    hash := storage_hash }

/-- Embedding of `rollback` (collection_view.rs:110-114). -/
def rollback (s : ByteCollectionView W) : ByteCollectionView W :=
  { s with delete_storage_first := false, updates := [], hash := s.stored_hash }

/-- Embedding of `clear` (collection_view.rs:155-159). -/
def clear (s : ByteCollectionView W) : ByteCollectionView W :=
  { s with delete_storage_first := true, updates := [], hash := none }

/-- Embedding of `add_index` (collection_view.rs:206-209): append the put of
the empty index marker to the batch. -/
def add_index (s : ByteCollectionView W) (batch : List BatchOp)
    (index : List Nat) : List BatchOp :=
  batch ++ [.put_key_value (s.get_index_key index) .emptyVal]

/-- Loop of the `delete_storage_first` branch of `flush`
(collection_view.rs:119-124): sub-view flush then index put for `Set`
entries, nothing for `Removed` entries. -/
def flush_updates_dsf (wflush : W → List BatchOp) (s : ByteCollectionView W) :
    List (List Nat × Update W) → List BatchOp → List BatchOp
  | [], batch => batch
  | (index, u) :: rest, batch =>
    match u with
    | .set view => flush_updates_dsf wflush s rest (s.add_index (batch ++ wflush view) index)
    | .removed => flush_updates_dsf wflush s rest batch

/-- Loop of the other branch of `flush` (collection_view.rs:127-140):
`Removed` entries additionally yield an index delete and a sub-view
prefix delete. -/
def flush_updates (wflush : W → List BatchOp) (s : ByteCollectionView W) :
    List (List Nat × Update W) → List BatchOp → List BatchOp
  | [], batch => batch
  | (index, u) :: rest, batch =>
    match u with
    | .set view => flush_updates wflush s rest (s.add_index (batch ++ wflush view) index)
    | .removed =>
      flush_updates wflush s rest
        (batch ++ [.delete_key (s.get_index_key index),
                   .delete_key_pfx (s.get_subview_key index)])

/-- Embedding of `flush` (collection_view.rs:116-153). `wflush` is the batch
contribution of one sub-view's own `flush`. Returns the extended batch and
the post-flush view state. -/
def flush (wflush : W → List BatchOp) (s : ByteCollectionView W)
    (batch : List BatchOp) : List BatchOp × ByteCollectionView W :=
  let step1 : List BatchOp × Option Nat :=
    if s.delete_storage_first then
      (flush_updates_dsf wflush s s.updates (batch ++ [.delete_key_pfx s.base_key]), none)
    else
      (flush_updates wflush s s.updates batch, s.stored_hash)
  let step2 : List BatchOp × Option Nat :=
    if step1.2 ≠ s.hash then
      (match s.hash with
       | none => step1.1 ++ [.delete_key (s.base_tag KeyTag.hash)]
       | some h => step1.1 ++ [.put_key_value (s.base_tag KeyTag.hash) (.hashVal h)],
       s.hash)
    else step1
  (step2.1,
   { s with delete_storage_first := false, updates := [], stored_hash := step2.2 })

end ByteCollectionView

namespace ByteCollectionView

variable {W : Type}

/-- Inner `loop` of `for_each_key_while` (collection_view.rs:476-495), for one
stored `index`: consume updates whose key is at most `index`, emitting the
`Set` ones; when the consumed key equals `index` the loop breaks with `index`
itself not emitted, otherwise `index` is emitted and the updates stream is
left in place. Returns the emitted keys and the remaining updates. -/
def inner_merge_loop (index : List Nat) :
    List (List Nat × Update W) → List (List Nat) × List (List Nat × Update W)
  | [] => ([index], [])
  | (key, value) :: rest =>
    if key ≤ index then
      let emitted : List (List Nat) :=
        match value with
        | .set _ => [key]
        | .removed => []
      if key = index then (emitted, rest)
      else
        let step := inner_merge_loop index rest
        (emitted ++ step.1, step.2)
    else ([index], (key, value) :: rest)

/-- Trailing `while let` loop of `for_each_key_while`
(collection_view.rs:499-506): drain the remaining updates, emitting the keys
of `Set` entries. -/
def drain_updates : List (List Nat × Update W) → List (List Nat)
  | [] => []
  | (key, .set _) :: rest => key :: drain_updates rest
  | (_, .removed) :: rest => drain_updates rest

/-- Outer `for` loop of `for_each_key_while` over the stored index keys,
followed by the drain of the remaining updates. -/
def merge_stored_updates :
    List (List Nat) → List (List Nat × Update W) → List (List Nat)
  | [], upds => drain_updates upds
  | index :: stored_rest, upds =>
    let step := inner_merge_loop index upds
    step.1 ++ merge_stored_updates stored_rest step.2

/-- Embedding of `keys` via `for_each_key` / `for_each_key_while`
(collection_view.rs:465-564): `stored` is the lexicographically ordered list
of short keys found in storage under the index tag. -/
def keys (s : ByteCollectionView W) (stored : List (List Nat)) :
    List (List Nat) :=
  if s.delete_storage_first then drain_updates s.updates
  else merge_stored_updates stored s.updates

/-- Specification-side emission of the §4.4 iteration when
`delete_storage_first` is set: only the `Set`-tagged update keys, in order.
Written from the spec's words, for comparison with the source translation. -/
def set_keys (upds : List (List Nat × Update W)) : List (List Nat) :=
  upds.filterMap fun kv =>
    match kv.2 with
    | .set _ => some kv.1
    | .removed => none

/-- Specification-side merge of the §4.4 iteration: on equal keys the
update's variant wins and both sides advance; a smaller update key is emitted
iff `Set`; a smaller stored key is always emitted; remaining updates are
drained at the end. Written from the spec's words, for comparison with the
source translation `merge_stored_updates`. -/
def merge_spec :
    List (List Nat) → List (List Nat × Update W) → List (List Nat)
  | [], upds => set_keys upds
  | index :: stored_rest, [] => index :: merge_spec stored_rest []
  | index :: stored_rest, (key, value) :: upd_rest =>
    if key = index then
      (match value with
       | Update.set _ => [key]
       | Update.removed => ([] : List (List Nat))) ++ merge_spec stored_rest upd_rest
    else if key < index then
      (match value with
       | Update.set _ => [key]
       | Update.removed => ([] : List (List Nat))) ++
        merge_spec (index :: stored_rest) upd_rest
    else
      index :: merge_spec stored_rest ((key, value) :: upd_rest)
termination_by stored upds => stored.length + upds.length
decreasing_by
  all_goals simp
  all_goals omega

end ByteCollectionView

namespace ByteCollectionView

variable {W : Type}

theorem drain_updates_eq_set_keys (upds : List (List Nat × Update W)) :
    drain_updates upds = set_keys upds := by
  induction upds with
  | nil => rfl
  | cons kv rest ih =>
    obtain ⟨key, value⟩ := kv
    cases value <;> simp [drain_updates, set_keys, List.filterMap] <;>
      simpa [set_keys] using ih

theorem merge_spec_nil_stored (upds : List (List Nat × Update W)) :
    merge_spec [] upds = set_keys upds := by
  rw [merge_spec.eq_def]

theorem merge_spec_cons_nil (index : List Nat) (stored_rest : List (List Nat)) :
    merge_spec (index :: stored_rest) ([] : List (List Nat × Update W)) =
      index :: merge_spec stored_rest ([] : List (List Nat × Update W)) := by
  rw [merge_spec.eq_def]

theorem merge_spec_cons_cons (index : List Nat) (stored_rest : List (List Nat))
    (key : List Nat) (value : Update W) (upd_rest : List (List Nat × Update W)) :
    merge_spec (index :: stored_rest) ((key, value) :: upd_rest) =
      if key = index then
        (match value with
         | Update.set _ => [key]
         | Update.removed => ([] : List (List Nat))) ++ merge_spec stored_rest upd_rest
      else if key < index then
        (match value with
         | Update.set _ => [key]
         | Update.removed => ([] : List (List Nat))) ++
          merge_spec (index :: stored_rest) upd_rest
      else
        index :: merge_spec stored_rest ((key, value) :: upd_rest) := by
  rw [merge_spec.eq_def]

theorem merge_stored_updates_eq_merge_spec (stored : List (List Nat)) :
    ∀ upds : List (List Nat × Update W),
      merge_stored_updates stored upds = merge_spec stored upds := by
  induction stored with
  | nil =>
    intro upds
    rw [merge_spec_nil_stored]
    simp only [merge_stored_updates]
    exact drain_updates_eq_set_keys upds
  | cons index stored_rest ih =>
    intro upds
    induction upds with
    | nil =>
      rw [merge_spec_cons_nil, ← ih]
      simp [merge_stored_updates, inner_merge_loop]
    | cons kv upd_rest ihu =>
      obtain ⟨key, value⟩ := kv
      rw [merge_spec_cons_cons]
      rcases lt_trichotomy key index with hlt | heq | hgt
      · have hle : key ≤ index := le_of_lt hlt
        have hne : key ≠ index := ne_of_lt hlt
        rw [if_neg hne, if_pos hlt, ← ihu]
        simp only [merge_stored_updates, inner_merge_loop, if_pos hle, if_neg hne]
        cases value <;> simp
      · subst heq
        rw [if_pos rfl, ← ih upd_rest]
        cases value <;> simp [merge_stored_updates, inner_merge_loop]
      · have hnle : ¬ key ≤ index := not_le_of_lt hgt
        have hne : key ≠ index := ne_of_gt hgt
        have hnlt : ¬ key < index := not_lt_of_gt hgt
        rw [if_neg hne, if_neg hnlt, ← ih ((key, value) :: upd_rest)]
        simp only [merge_stored_updates, inner_merge_loop, if_neg hnle]
        simp

theorem set_keys_sublist (upds : List (List Nat × Update W)) :
    List.Sublist (set_keys upds) (upds.map Prod.fst) := by
  induction upds with
  | nil => simp [set_keys]
  | cons kv rest ih =>
    obtain ⟨key, value⟩ := kv
    cases value with
    | set w =>
      have h1 : set_keys ((key, Update.set w) :: rest) = key :: set_keys rest := by
        simp [set_keys]
      rw [h1, List.map_cons]
      exact List.Sublist.cons₂ key ih
    | removed =>
      have h1 : set_keys ((key, (Update.removed : Update W)) :: rest) = set_keys rest := by
        simp [set_keys]
      rw [h1, List.map_cons]
      exact List.Sublist.cons key ih

theorem mem_set_keys {y : List Nat} {upds : List (List Nat × Update W)}
    (h : y ∈ set_keys upds) : y ∈ upds.map Prod.fst := by
  exact List.Sublist.mem h (set_keys_sublist upds)

theorem mem_merge_spec {y : List Nat} :
    ∀ (stored : List (List Nat)) (upds : List (List Nat × Update W)),
      y ∈ merge_spec stored upds → y ∈ stored ∨ y ∈ upds.map Prod.fst := by
  intro stored upds
  induction stored, upds using merge_spec.induct with
  | case1 upds =>
    rw [merge_spec_nil_stored]
    intro h
    exact Or.inr (mem_set_keys h)
  | case2 index stored_rest ih =>
    rw [merge_spec_cons_nil]
    intro h
    rcases List.mem_cons.mp h with h | h
    · exact Or.inl (List.mem_cons.mpr (Or.inl h))
    · rcases ih h with h | h
      · exact Or.inl (List.mem_cons.mpr (Or.inr h))
      · simp at h
  | case3 stored_rest key value upd_rest ih =>
    rw [merge_spec_cons_cons, if_pos rfl]
    intro h
    rcases List.mem_append.mp h with h | h
    · cases value with
      | set w =>
        simp at h
        subst h
        exact Or.inr (by simp)
      | removed => simp at h
    · rcases ih h with h | h
      · exact Or.inl (List.mem_cons.mpr (Or.inr h))
      · refine Or.inr ?_
        rw [List.map_cons]
        exact List.mem_cons.mpr (Or.inr h)
  | case4 index stored_rest key value upd_rest hne hlt ih =>
    rw [merge_spec_cons_cons, if_neg hne, if_pos hlt]
    intro h
    rcases List.mem_append.mp h with h | h
    · cases value with
      | set w =>
        simp at h
        subst h
        exact Or.inr (by simp)
      | removed => simp at h
    · rcases ih h with h | h
      · exact Or.inl h
      · refine Or.inr ?_
        rw [List.map_cons]
        exact List.mem_cons.mpr (Or.inr h)
  | case5 index stored_rest key value upd_rest hne hnlt ih =>
    rw [merge_spec_cons_cons, if_neg hne, if_neg hnlt]
    intro h
    rcases List.mem_cons.mp h with h | h
    · exact Or.inl (List.mem_cons.mpr (Or.inl h))
    · rcases ih h with h | h
      · exact Or.inl (List.mem_cons.mpr (Or.inr h))
      · exact Or.inr h

theorem merge_spec_pairwise :
    ∀ (stored : List (List Nat)) (upds : List (List Nat × Update W)),
      List.Pairwise (· < ·) stored →
      List.Pairwise (· < ·) (upds.map Prod.fst) →
      List.Pairwise (· < ·) (merge_spec stored upds) := by
  intro stored upds
  induction stored, upds using merge_spec.induct with
  | case1 upds =>
    intro _ hu
    rw [merge_spec_nil_stored]
    exact List.Pairwise.sublist (set_keys_sublist upds) hu
  | case2 index stored_rest ih =>
    intro hs hu
    rw [merge_spec_cons_nil]
    have hs' := List.pairwise_cons.mp hs
    refine List.Pairwise.cons ?_ (ih hs'.2 hu)
    intro y hy
    rcases mem_merge_spec stored_rest [] hy with h | h
    · exact hs'.1 y h
    · simp at h
  | case3 stored_rest key value upd_rest ih =>
    intro hs hu
    rw [merge_spec_cons_cons, if_pos rfl]
    rw [List.map_cons] at hu
    have hs' := List.pairwise_cons.mp hs
    have hu' := List.pairwise_cons.mp hu
    have hrec := ih hs'.2 hu'.2
    have hbound : ∀ y ∈ merge_spec stored_rest upd_rest, key < y := by
      intro y hy
      rcases mem_merge_spec stored_rest upd_rest hy with h | h
      · exact hs'.1 y h
      · exact hu'.1 y h
    cases value with
    | set w =>
      rw [List.singleton_append]
      exact List.Pairwise.cons hbound hrec
    | removed =>
      simpa using hrec
  | case4 index stored_rest key value upd_rest hne hlt ih =>
    intro hs hu
    rw [merge_spec_cons_cons, if_neg hne, if_pos hlt]
    rw [List.map_cons] at hu
    have hs' := List.pairwise_cons.mp hs
    have hu' := List.pairwise_cons.mp hu
    have hrec := ih hs hu'.2
    have hbound : ∀ y ∈ merge_spec (index :: stored_rest) upd_rest, key < y := by
      intro y hy
      rcases mem_merge_spec (index :: stored_rest) upd_rest hy with h | h
      · rcases List.mem_cons.mp h with h | h
        · rw [h]; exact hlt
        · exact lt_trans hlt (hs'.1 y h)
      · exact hu'.1 y h
    cases value with
    | set w =>
      rw [List.singleton_append]
      exact List.Pairwise.cons hbound hrec
    | removed =>
      simpa using hrec
  | case5 index stored_rest key value upd_rest hne hnlt ih =>
    intro hs hu
    rw [merge_spec_cons_cons, if_neg hne, if_neg hnlt]
    rw [List.map_cons] at hu
    have hs' := List.pairwise_cons.mp hs
    have hu' := List.pairwise_cons.mp hu
    have hkey : index < key := lt_of_le_of_ne (not_lt.mp hnlt) (Ne.symm hne)
    refine List.Pairwise.cons ?_ (ih hs'.2 (by rw [List.map_cons]; exact hu))
    intro y hy
    rcases mem_merge_spec stored_rest ((key, value) :: upd_rest) hy with h | h
    · exact hs'.1 y h
    · rw [List.map_cons] at h
      rcases List.mem_cons.mp h with h | h
      · rw [h]; exact hkey
      · exact lt_trans hkey (hu'.1 y h)

end ByteCollectionView

namespace ByteCollectionView

variable {W : Type}

/-- C2: `keys()` (the materialization of `for_each_key` /
`for_each_key_while`) equals the §4.4 merge of the spec — only `Set` update
keys when `delete_storage_first` is set, otherwise the stored keys merged
with the updates map where the update's variant wins on an equal key — and
the visited keys are in strictly increasing lexicographic order. -/
theorem keys_visits_live_entries_in_order (s : ByteCollectionView W)
    (stored : List (List Nat))
    (hstored : List.Pairwise (· < ·) stored)
    (hupds : List.Pairwise (· < ·) (s.updates.map Prod.fst)) :
    s.keys stored =
      (if s.delete_storage_first then set_keys s.updates
       else merge_spec stored s.updates) ∧
    List.Pairwise (· < ·) (s.keys stored) := by
  unfold keys
  by_cases h : s.delete_storage_first
  · rw [if_pos h, if_pos h]
    refine ⟨drain_updates_eq_set_keys _, ?_⟩
    rw [drain_updates_eq_set_keys]
    exact List.Pairwise.sublist (set_keys_sublist _) hupds
  · rw [if_neg h, if_neg h]
    refine ⟨merge_stored_updates_eq_merge_spec _ _, ?_⟩
    rw [merge_stored_updates_eq_merge_spec]
    exact merge_spec_pairwise _ _ hstored hupds

/-- Witness for the C2 theorem: one pending `Set` at key `[0]`, one pending
`Removed` at key `[2]` shadowing a stored entry, stored entries `[1]`, `[2]`. -/
theorem keys_visits_live_entries_in_order_witness :
    (ByteCollectionView.mk (W := Unit) [] false
        [([0], Update.set ()), ([2], Update.removed)] none none).keys
        [[1], [2]] =
      (if (ByteCollectionView.mk (W := Unit) [] false
            [([0], Update.set ()), ([2], Update.removed)] none none).delete_storage_first
       then set_keys [([0], Update.set ()), ([2], Update.removed)]
       else merge_spec [[1], [2]] [([0], Update.set ()), ([2], Update.removed)]) ∧
    List.Pairwise (· < ·)
      ((ByteCollectionView.mk (W := Unit) [] false
          [([0], Update.set ()), ([2], Update.removed)] none none).keys
          [[1], [2]]) :=
  keys_visits_live_entries_in_order _ _ (by decide) (by decide)

/-- Specification-side batch contribution of one `Set` entry of the §4.4
flush protocol: the sub-view's own flush ops followed by the put of the empty
index marker. Written from the spec's words. -/
def set_entry_ops (wflush : W → List BatchOp) (s : ByteCollectionView W)
    (index : List Nat) (view : W) : List BatchOp :=
  wflush view ++ [.put_key_value (s.get_index_key index) .emptyVal]

/-- Specification-side batch contribution of one `Removed` entry: delete the
index marker, delete the sub-view key space by prefix. -/
def removed_entry_ops (s : ByteCollectionView W) (index : List Nat) :
    List BatchOp :=
  [.delete_key (s.get_index_key index), .delete_key_pfx (s.get_subview_key index)]

/-- Specification-side hash reconciliation: if the previously stored hash
differs from the cached hash, put the cached hash (or delete the hash key
when the cached hash is absent). -/
def reconcile_hash_ops (s : ByteCollectionView W) (prev : Option Nat) :
    List BatchOp :=
  if prev ≠ s.hash then
    (match s.hash with
     | none => [.delete_key (s.base_tag KeyTag.hash)]
     | some h => [.put_key_value (s.base_tag KeyTag.hash) (.hashVal h)])
  else []

/-- Specification-side op sequence of the whole §4.4 flush protocol, written
from the spec's words for comparison with the source translation `flush`.
In the `delete_storage_first` branch the reconciliation is performed against
a `stored_hash` already reset to `none`. -/
def flush_spec_ops (wflush : W → List BatchOp) (s : ByteCollectionView W) :
    List BatchOp :=
  if s.delete_storage_first then
    .delete_key_pfx s.base_key ::
      ((s.updates.map fun kv =>
          match kv.2 with
          | Update.set view => set_entry_ops wflush s kv.1 view
          | Update.removed => []).flatten ++ reconcile_hash_ops s none)
  else
    (s.updates.map fun kv =>
        match kv.2 with
        | Update.set view => set_entry_ops wflush s kv.1 view
        | Update.removed => removed_entry_ops s kv.1).flatten ++
      reconcile_hash_ops s s.stored_hash

theorem flush_updates_dsf_eq (wflush : W → List BatchOp)
    (s : ByteCollectionView W) (upds : List (List Nat × Update W)) :
    ∀ batch, flush_updates_dsf wflush s upds batch =
      batch ++ (upds.map fun kv =>
        match kv.2 with
        | Update.set view => set_entry_ops wflush s kv.1 view
        | Update.removed => ([] : List BatchOp)).flatten := by
  induction upds with
  | nil => intro batch; simp [flush_updates_dsf]
  | cons kv rest ih =>
    intro batch
    obtain ⟨index, u⟩ := kv
    cases u with
    | set view =>
      simp [flush_updates_dsf, add_index, ih, set_entry_ops, List.append_assoc]
    | removed =>
      simp [flush_updates_dsf, ih]

theorem flush_updates_eq (wflush : W → List BatchOp)
    (s : ByteCollectionView W) (upds : List (List Nat × Update W)) :
    ∀ batch, flush_updates wflush s upds batch =
      batch ++ (upds.map fun kv =>
        match kv.2 with
        | Update.set view => set_entry_ops wflush s kv.1 view
        | Update.removed => removed_entry_ops s kv.1).flatten := by
  induction upds with
  | nil => intro batch; simp [flush_updates]
  | cons kv rest ih =>
    intro batch
    obtain ⟨index, u⟩ := kv
    cases u with
    | set view =>
      simp [flush_updates, add_index, ih, set_entry_ops, List.append_assoc]
    | removed =>
      simp [flush_updates, ih, removed_entry_ops, List.append_assoc]

/-- C1: `flush(batch)` appends exactly the §4.4 protocol operations to the
batch — in the `delete_storage_first` branch, the base-prefix delete, then
per pending `Set` entry the sub-view flush followed by the index put, with
`stored_hash` reset to `none` before hash reconciliation; otherwise per
entry the `Set` ops or, for `Removed`, the index delete and the sub-view
prefix delete; finally the hash reconciliation — and afterwards `updates` is
empty, `delete_storage_first` is false and `stored_hash` equals the cached
hash. -/
theorem flush_emits_protocol_ops (wflush : W → List BatchOp)
    (s : ByteCollectionView W) (batch : List BatchOp) :
    flush wflush s batch =
      (batch ++ flush_spec_ops wflush s,
       { s with delete_storage_first := false, updates := [],
                stored_hash := s.hash }) := by
  by_cases hdsf : s.delete_storage_first
  · cases hh : s.hash with
    | none =>
      simp [flush, flush_spec_ops, hdsf, hh, reconcile_hash_ops,
        flush_updates_dsf_eq, List.append_assoc]
    | some v =>
      simp [flush, flush_spec_ops, hdsf, hh, reconcile_hash_ops,
        flush_updates_dsf_eq, List.append_assoc]
  · by_cases hsame : s.stored_hash = s.hash
    · simp [flush, flush_spec_ops, hdsf, hsame, reconcile_hash_ops,
        flush_updates_eq, List.append_assoc]
    · cases hh : s.hash with
      | none =>
        rw [hh] at hsame
        simp [flush, flush_spec_ops, hdsf, hsame, hh, reconcile_hash_ops,
          flush_updates_eq, List.append_assoc]
      | some v =>
        rw [hh] at hsame
        simp [flush, flush_spec_ops, hdsf, hsame, hh, reconcile_hash_ops,
          flush_updates_eq, List.append_assoc]

end ByteCollectionView

namespace ByteCollectionView

variable {W : Type}

/-- Lookup in the updates map (`BTreeMap::get` / `entry`). -/
def lookup_update : List (List Nat × Update W) → List Nat → Option (Update W)
  | [], _ => none
  | (k, u) :: rest, key => if k = key then some u else lookup_update rest key

/-- Ordered insertion into the updates map (`BTreeMap::insert` and the
vacant/occupied `entry` insertions), replacing an existing binding. -/
def insert_update : List (List Nat × Update W) → List Nat → Update W →
    List (List Nat × Update W)
  | [], key, u => [(key, u)]
  | (k, v) :: rest, key, u =>
    if key < k then (key, u) :: (k, v) :: rest
    else if key = k then (key, u) :: rest
    else (k, v) :: insert_update rest key u

/-- Deletion from the updates map (`BTreeMap::remove`). -/
def erase_update : List (List Nat × Update W) → List Nat →
    List (List Nat × Update W)
  | [], _ => []
  | (k, v) :: rest, key =>
    if k = key then rest else (k, v) :: erase_update rest key

/-- Embedding of `do_load_entry_mut` (collection_view.rs:397-435): `wload`
loads a sub-view from a child context given by its base key, `wclear` is the
sub-view's `clear`. Only the state effect is kept; the returned mutable
reference is dropped. -/
def do_load_entry_mut (wload : List Nat → W) (wclear : W → W)
    (s : ByteCollectionView W) (short_key : List Nat) : ByteCollectionView W :=
  match lookup_update s.updates short_key with
  | some (Update.set _) => { s with hash := none }
  | some Update.removed =>
    let view := wclear (wload (s.base_tag_index KeyTag.subview short_key))
    { s with hash := none,
             updates := insert_update s.updates short_key (Update.set view) }
  | none =>
    let view0 := wload (s.base_tag_index KeyTag.subview short_key)
    let view := if s.delete_storage_first then wclear view0 else view0
    { s with hash := none,
             updates := insert_update s.updates short_key (Update.set view) }

/-- Embedding of `remove_entry` (collection_view.rs:382-390). -/
def remove_entry (s : ByteCollectionView W) (short_key : List Nat) :
    ByteCollectionView W :=
  if s.delete_storage_first then
    { s with hash := none, updates := erase_update s.updates short_key }
  else
    { s with hash := none,
             updates := insert_update s.updates short_key Update.removed }

/-- Mutations considered by the rollback claim: loading an entry mutably
(which also covers `load_entry_or_insert` and `reset_entry_to_default`),
removing an entry, and clearing the collection. -/
inductive Mutation where
  | load_entry_mut (short_key : List Nat)
  | remove_entry (short_key : List Nat)
  | clear

/-- Application of one mutation to the collection state. -/
def apply_mutation (wload : List Nat → W) (wclear : W → W)
    (s : ByteCollectionView W) : Mutation → ByteCollectionView W
  | Mutation.load_entry_mut k => do_load_entry_mut wload wclear s k
  | Mutation.remove_entry k => s.remove_entry k
  | Mutation.clear => s.clear

theorem apply_mutation_preserves (wload : List Nat → W) (wclear : W → W)
    (s : ByteCollectionView W) (m : Mutation) :
    (apply_mutation wload wclear s m).base_key = s.base_key ∧
    (apply_mutation wload wclear s m).stored_hash = s.stored_hash := by
  cases m with
  | load_entry_mut k =>
    cases hl : lookup_update s.updates k with
    | none => simp [apply_mutation, do_load_entry_mut, hl]
    | some u => cases u <;> simp [apply_mutation, do_load_entry_mut, hl]
  | remove_entry k =>
    by_cases hdsf : s.delete_storage_first <;>
      simp [apply_mutation, ByteCollectionView.remove_entry, hdsf]
  | clear => simp [apply_mutation, clear]

theorem foldl_apply_mutation_preserves (wload : List Nat → W) (wclear : W → W) :
    ∀ (ms : List Mutation) (s : ByteCollectionView W),
      (ms.foldl (apply_mutation wload wclear) s).base_key = s.base_key ∧
      (ms.foldl (apply_mutation wload wclear) s).stored_hash = s.stored_hash := by
  intro ms
  induction ms with
  | nil => intro s; exact ⟨rfl, rfl⟩
  | cons m rest ih =>
    intro s
    have h1 := apply_mutation_preserves wload wclear s m
    have h2 := ih (apply_mutation wload wclear s m)
    simp only [List.foldl_cons]
    exact ⟨h2.1.trans h1.1, h2.2.trans h1.2⟩

/-- C7: after any sequence of mutations applied to a freshly loaded
collection, `rollback()` restores exactly the post-load state —
`delete_storage_first` false, empty `updates`, cached hash reset to
`stored_hash` — so the whole state, and in particular `keys()` and the hash
cache, equal their values immediately after `load` of the stored state. -/
theorem rollback_restores_post_load (wload : List Nat → W) (wclear : W → W)
    (ms : List Mutation) (base : List Nat) (h : Option Nat)
    (stored : List (List Nat)) :
    rollback (ms.foldl (apply_mutation wload wclear) (load base h)) =
      (load base h : ByteCollectionView W) ∧
    (rollback (ms.foldl (apply_mutation wload wclear) (load base h))).keys
        stored = (load base h : ByteCollectionView W).keys stored ∧
    (rollback (ms.foldl (apply_mutation wload wclear) (load base h))).hash =
      (load base h : ByteCollectionView W).stored_hash := by
  have hp := foldl_apply_mutation_preserves wload wclear ms (load base h)
  have hmain : rollback (ms.foldl (apply_mutation wload wclear) (load base h)) =
      (load base h : ByteCollectionView W) := by
    generalize hgen :
      ms.foldl (apply_mutation wload wclear) (load base h) = t at hp
    obtain ⟨bk, d, u, sh, hh⟩ := t
    simp only [load] at hp ⊢
    simp [rollback, hp.1, hp.2]
  exact ⟨hmain, by rw [hmain], by rw [hmain]; rfl⟩

end ByteCollectionView

/-! ## Matching engine (examples/matching-engine/src/contract.rs)

The engine state lives in state.rs, which is not among the sources, and the
generic view types it instantiates (QueueView, MapView, RegisterView, the
custom collections of LevelView) are also absent; those parts are modelled
from the spec (sections 4.6 and 4.7) at the logical level: the order queue of
a price level is a list, the two custom-ordered collections are association
lists kept in their iteration order (ascending price for asks, descending
price for bids), and the orders and account maps are association lists. The
functions of contract.rs are translated on top of this state model. -/

/-- Embedding of `OrderNature` (lib.rs:286-291). -/
inductive OrderNature where
  | bid
  | ask
  deriving DecidableEq, Repr

/-- Modelled from the spec: the order-queue record with amount, owner and
order id (section 4.6); the `OrderEntry` struct is declared in state.rs,
which is not among the sources. -/
structure OrderEntry where
  amount : Nat
  owner : Nat
  order_id : Nat
  deriving DecidableEq, Repr

/-- Modelled from the spec: the `orders` record with price, side and owner
(section 4.7); the `KeyBook` struct is declared in state.rs, which is not
among the sources. -/
structure KeyBook where
  price : Nat
  nature : OrderNature
  owner : Nat
  deriving DecidableEq, Repr

/-- Embedding of the `Transfer` struct (contract.rs:39-47). -/
structure Transfer where
  owner : Nat
  amount : Nat
  token_idx : Nat
  deriving DecidableEq, Repr

/-- Embedding of `ModifyAmount` (contract.rs:32-36); the second constructor
is named `part` here. -/
inductive ModifyAmount where
  | all
  | part (amount : Nat)
  deriving DecidableEq, Repr

/-- Embedding of `MatchingEngineError` (declared in state.rs, which is not
among the sources); modelled from the spec's section 7 error kinds and the
constructors contract.rs uses. -/
inductive MatchingEngineError where
  | order_not_present
  | wrong_owner_of_order
  | too_large_modify_order
  | incorrect_authentication
  deriving DecidableEq, Repr

/-- Outcome of an engine call: a value, a domain error returned to the
caller, or a Rust panic from `expect`, `unwrap` or `assert!`. -/
inductive RunResult (α : Type) where
  | ok (value : α)
  | err (e : MatchingEngineError)
  | panicked
  deriving DecidableEq, Repr

/-- Sequencing of engine calls: errors and panics propagate. -/
def RunResult.bind {α β : Type} : RunResult α → (α → RunResult β) → RunResult β
  | .ok a, f => f a
  | .err e, _ => .err e
  | .panicked, _ => .panicked

/-- Modelled from the spec: the engine state of state.rs (section 4.7), which
is not among the sources, at the logical level. `bids` and `asks` are kept in
the iteration order of their custom-ordered collections: descending price for
bids, ascending price for asks. -/
structure MatchingEngine where
  next_order_number : Nat
  orders : List (Nat × KeyBook)
  account_info : List (Nat × List Nat)
  bids : List (Nat × List OrderEntry)
  asks : List (Nat × List OrderEntry)
  deriving DecidableEq, Repr

/-- Lookup in an association list (a MapView or collection `get`). -/
def assoc_get {β : Type} : List (Nat × β) → Nat → Option β
  | [], _ => none
  | (k, v) :: rest, key => if k = key then some v else assoc_get rest key

/-- Replace the binding of a key when present (in-place sub-view mutation);
the identity when the key is absent. -/
def assoc_set {β : Type} : List (Nat × β) → Nat → β → List (Nat × β)
  | [], _, _ => []
  | (k, v) :: rest, key, value =>
    if k = key then (k, value) :: rest else (k, v) :: assoc_set rest key value

/-- Insert or replace a binding (a MapView `insert`). -/
def assoc_insert {β : Type} : List (Nat × β) → Nat → β → List (Nat × β)
  | [], key, value => [(key, value)]
  | (k, v) :: rest, key, value =>
    if k = key then (k, value) :: rest else (k, v) :: assoc_insert rest key value

/-- Remove a binding (a collection `remove_entry`). -/
def assoc_remove {β : Type} : List (Nat × β) → Nat → List (Nat × β)
  | [], _ => []
  | (k, v) :: rest, key =>
    if k = key then rest else (k, v) :: assoc_remove rest key

/-- Modelled from the spec: `load_entry_mut` on a custom-ordered collection
creates the entry when absent; the key of a new entry takes its place in the
iteration order, which the custom serialization keeps sorted by `before`. -/
def ensure_level (before : Nat → Nat → Bool) :
    List (Nat × List OrderEntry) → Nat → List (Nat × List OrderEntry)
  | [], key => [(key, [])]
  | (k, v) :: rest, key =>
    if k = key then (k, v) :: rest
    else if before key k then (key, []) :: (k, v) :: rest
    else (k, v) :: ensure_level before rest key

/-- Iteration order of the ask side: ascending price. -/
def ask_before (a b : Nat) : Bool := a < b

/-- Iteration order of the bid side: descending price. -/
def bid_before (a b : Nat) : Bool := b < a

namespace MatchingEngine

/-- Embedding of `get_transfers` (contract.rs:480-554). The two `assert!`
calls and the panicking products make the result an `Option`, `none` being
the panic outcome. The `order_level` argument is the liquidity-providing
order; only its owner is read. -/
def get_transfers (nature : OrderNature) (fill : Nat) (owner : Nat)
    (order_level : OrderEntry) (price_level : Nat) (price_insert : Nat) :
    Option (List Transfer) :=
  match nature with
  | OrderNature.bid =>
    if price_insert ≥ price_level then
      (product_price_amount price_insert fill).map fun fill0 =>
        [{ owner := owner, amount := fill, token_idx := 1 },
         { owner := order_level.owner, amount := fill0, token_idx := 0 }]
    else none
  | OrderNature.ask =>
    if price_insert ≤ price_level then
      (product_price_amount price_insert fill).bind fun fill0 =>
        let transfer_to_seller : Transfer :=
          { owner := owner, amount := fill0, token_idx := 0 }
        let transfer_to_buyer1 : Transfer :=
          { owner := order_level.owner, amount := fill, token_idx := 1 }
        if price_level ≠ price_insert then
          (product_price_amount (price_level - price_insert) fill).map
            fun diff0 =>
              [transfer_to_buyer1, transfer_to_seller,
               { owner := order_level.owner, amount := diff0, token_idx := 0 }]
        else some [transfer_to_buyer1, transfer_to_seller]
    else none

/-- Embedding of `remove_zero_orders_from_level` (contract.rs:365-377): count
the zero-amount prefix with `take_while`, then `delete_front` that many
times. -/
def remove_zero_orders_from_level (queue : List OrderEntry) :
    List OrderEntry :=
  let n_remove := (queue.takeWhile fun order => order.amount == 0).length
  queue.drop n_remove

/-- Embedding of the loop of `level_clearing` (contract.rs:569-589) over the
level queue. Returns the mutated queue, the remaining incoming amount, the
emitted transfers, and the `(owner, order_id)` pairs recorded for later
index removal. The two `try_sub_assign(..).unwrap()` calls cannot fail
because the subtrahend is `min` of the two amounts, so they are plain
subtractions here. -/
def level_clearing_loop (owner : Nat) (nature : OrderNature)
    (price_level : Nat) (price_insert : Nat) :
    List OrderEntry → Nat →
    Option (List OrderEntry × Nat × List Transfer × List (Nat × Nat))
  | [], amount => some ([], amount, [], [])
  | order :: rest, amount =>
    let fill := min order.amount amount
    let amount1 := amount - fill
    let order1 : OrderEntry := { order with amount := order.amount - fill }
    let tr_opt : Option (List Transfer) :=
      if fill > 0 then
        get_transfers nature fill owner order1 price_level price_insert
      else some []
    tr_opt.bind fun tr =>
      let rm : List (Nat × Nat) :=
        if order1.amount = 0 then [(order1.owner, order1.order_id)] else []
      if amount1 = 0 then some (order1 :: rest, amount1, tr, rm)
      else
        (level_clearing_loop owner nature price_level price_insert rest
            amount1).map
          fun result =>
            (order1 :: result.1, result.2.1, tr ++ result.2.2.1,
             rm ++ result.2.2.2)

/-- Embedding of `level_clearing` (contract.rs:559-592): run the clearing
loop, then sweep the zero-amount prefix. -/
def level_clearing (owner : Nat) (nature : OrderNature) (price_level : Nat)
    (price_insert : Nat) (queue : List OrderEntry) (amount : Nat) :
    Option (List OrderEntry × Nat × List Transfer × List (Nat × Nat)) :=
  (level_clearing_loop owner nature price_level price_insert queue amount).map
    fun result => (remove_zero_orders_from_level result.1, result.2)

/-- Embedding of `remove_order_id` (contract.rs:618-631): removes the id from
the owner's `account_info` set, panicking (`expect` and `unwrap`) when the
owner has no account entry. Despite its own doc comment, the function does
not touch the `orders` map. -/
def remove_order_id (s : MatchingEngine) (owner : Nat) (order_id : Nat) :
    RunResult MatchingEngine :=
  match assoc_get s.account_info owner with
  | none => .panicked
  | some ids =>
    .ok { s with account_info :=
            assoc_set s.account_info owner (ids.filter (· ≠ order_id)) }

/-- Embedding of `remove_order_ids` (contract.rs:634-642). -/
def remove_order_ids : MatchingEngine → List (Nat × Nat) →
    RunResult MatchingEngine
  | s, [] => .ok s
  | s, (owner, order_id) :: rest =>
    match remove_order_id s owner order_id with
    | .ok s1 => remove_order_ids s1 rest
    | .err e => .err e
    | .panicked => .panicked

/-- Embedding of `insert_order` (contract.rs:597-613): index the id under the
owner (`get_mut_or_default` on the account map, set insertion) and store the
key book in `orders`. -/
def insert_order (s : MatchingEngine) (owner : Nat) (nature : OrderNature)
    (order_id : Nat) (price : Nat) : MatchingEngine :=
  let ids := (assoc_get s.account_info owner).getD []
  let ids1 := if order_id ∈ ids then ids else ids ++ [order_id]
  { s with
    account_info := assoc_insert s.account_info owner ids1
    orders := assoc_insert s.orders order_id
      { price := price, nature := nature, owner := owner } }

/-- Embedding of `check_order_id` (contract.rs:327-342). -/
def check_order_id (s : MatchingEngine) (order_id : Nat) (owner : Nat) :
    RunResult Unit :=
  match assoc_get s.orders order_id with
  | none => .err .order_not_present
  | some value =>
    if value.owner ≠ owner then .err .wrong_owner_of_order else .ok ()

/-- Search part of `modify_order_level` (contract.rs:388-402): find the order
with the given id in the queue, cancel from it, and report the cancelled
amount and whether the order reached zero. -/
def modify_order_in_queue :
    List OrderEntry → Nat → ModifyAmount →
    RunResult (List OrderEntry × Nat × Bool)
  | [], _, _ => .err .order_not_present
  | order :: rest, order_id, cancel_amount =>
    if order.order_id = order_id then
      match cancel_amount with
      | ModifyAmount.all =>
        .ok ({ order with amount := 0 } :: rest, order.amount, true)
      | ModifyAmount.part c =>
        if c > order.amount then .err .too_large_modify_order
        else
          let new_amount := order.amount - c
          .ok ({ order with amount := new_amount } :: rest,
               order.amount - new_amount, new_amount == 0)
    else
      match modify_order_in_queue rest order_id cancel_amount with
      | .ok result => .ok (order :: result.1, result.2)
      | .err e => .err e
      | .panicked => .panicked

/-- Embedding of `modify_order_level` (contract.rs:383-405): locate and
cancel, then sweep the zero-amount prefix. -/
def modify_order_level (queue : List OrderEntry) (order_id : Nat)
    (cancel_amount : ModifyAmount) :
    RunResult (List OrderEntry × Nat × Bool) :=
  match modify_order_in_queue queue order_id cancel_amount with
  | .ok result =>
    .ok (remove_zero_orders_from_level result.1, result.2)
  | .err e => .err e
  | .panicked => .panicked

/-- Embedding of `modify_order` (contract.rs:410-451). -/
def modify_order (s : MatchingEngine) (order_id : Nat)
    (cancel_amount : ModifyAmount) : RunResult (Transfer × MatchingEngine) :=
  match assoc_get s.orders order_id with
  | none => .err .order_not_present
  | some key_book =>
    match key_book.nature with
    | OrderNature.bid =>
      let bids1 := ensure_level bid_before s.bids key_book.price
      let queue := (assoc_get bids1 key_book.price).getD []
      match modify_order_level queue order_id cancel_amount with
      | .err e => .err e
      | .panicked => .panicked
      | .ok (queue1, corr, remove_flag) =>
        let s1 := { s with bids := assoc_set bids1 key_book.price queue1 }
        (if remove_flag then remove_order_id s1 key_book.owner order_id
         else .ok s1).bind fun s2 =>
          match product_price_amount key_book.price corr with
          | none => .panicked
          | some cancel_amount0 =>
            .ok ({ owner := key_book.owner, amount := cancel_amount0,
                   token_idx := 0 }, s2)
    | OrderNature.ask =>
      let asks1 := ensure_level ask_before s.asks key_book.price
      let queue := (assoc_get asks1 key_book.price).getD []
      match modify_order_level queue order_id cancel_amount with
      | .err e => .err e
      | .panicked => .panicked
      | .ok (queue1, corr, remove_flag) =>
        let s1 := { s with asks := assoc_set asks1 key_book.price queue1 }
        (if remove_flag then remove_order_id s1 key_book.owner order_id
         else .ok s1).bind fun s2 =>
          .ok ({ owner := key_book.owner, amount := corr, token_idx := 1 }, s2)

/-- Embedding of `get_new_order_id` (contract.rs:454-459). -/
def get_new_order_id (s : MatchingEngine) : Nat × MatchingEngine :=
  (s.next_order_number, { s with next_order_number := s.next_order_number + 1 })

/-- Loop of `insert_and_uncross_market` over the matching ask levels of an
incoming bid (contract.rs:677-696): clear the level, update its queue, drop
the level when its queue is empty, deindex the filled orders, and stop when
the incoming amount is exhausted. -/
def clear_ask_levels (owner : Nat) (price_insert : Nat) :
    MatchingEngine → Nat → List Nat → List Transfer →
    RunResult (MatchingEngine × Nat × List Transfer)
  | s, amount, [], transfers => .ok (s, amount, transfers)
  | s, amount, price_ask :: rest, transfers =>
    let asks1 := ensure_level ask_before s.asks price_ask
    let queue := (assoc_get asks1 price_ask).getD []
    match level_clearing owner OrderNature.bid price_ask price_insert queue
        amount with
    | none => .panicked
    | some (queue1, amount1, tr, removes) =>
      let asks2 := assoc_set asks1 price_ask queue1
      let asks3 := if queue1.length = 0 then assoc_remove asks2 price_ask
                   else asks2
      match remove_order_ids { s with asks := asks3 } removes with
      | .err e => .err e
      | .panicked => .panicked
      | .ok s2 =>
        if amount1 = 0 then .ok (s2, amount1, transfers ++ tr)
        else clear_ask_levels owner price_insert s2 amount1 rest
          (transfers ++ tr)

/-- Loop of `insert_and_uncross_market` over the matching bid levels of an
incoming ask (contract.rs:720-738). -/
def clear_bid_levels (owner : Nat) (price_insert : Nat) :
    MatchingEngine → Nat → List Nat → List Transfer →
    RunResult (MatchingEngine × Nat × List Transfer)
  | s, amount, [], transfers => .ok (s, amount, transfers)
  | s, amount, price_bid :: rest, transfers =>
    let bids1 := ensure_level bid_before s.bids price_bid
    let queue := (assoc_get bids1 price_bid).getD []
    match level_clearing owner OrderNature.ask price_bid price_insert queue
        amount with
    | none => .panicked
    | some (queue1, amount1, tr, removes) =>
      let bids2 := assoc_set bids1 price_bid queue1
      let bids3 := if queue1.length = 0 then assoc_remove bids2 price_bid
                   else bids2
      match remove_order_ids { s with bids := bids3 } removes with
      | .err e => .err e
      | .panicked => .panicked
      | .ok s2 =>
        if amount1 = 0 then .ok (s2, amount1, transfers ++ tr)
        else clear_bid_levels owner price_insert s2 amount1 rest
          (transfers ++ tr)

/-- Embedding of `insert_and_uncross_market` (contract.rs:651-754). The
matching levels are the longest crossable front of the opposite side's
iteration order, as collected by `for_each_index_while`. -/
def insert_and_uncross_market (s : MatchingEngine) (owner : Nat)
    (amount : Nat) (nature : OrderNature) (price : Nat) :
    RunResult (List Transfer × MatchingEngine) :=
  let step := get_new_order_id s
  let order_id := step.1
  let s0 := step.2
  match nature with
  | OrderNature.bid =>
    let matching_price_asks :=
      (s0.asks.map Prod.fst).takeWhile fun price_ask => price_ask ≤ price
    match clear_ask_levels owner price s0 amount matching_price_asks [] with
    | .err e => .err e
    | .panicked => .panicked
    | .ok (s1, final_amount, transfers) =>
      if final_amount ≠ 0 then
        let bids1 := ensure_level bid_before s1.bids price
        let queue := (assoc_get bids1 price).getD []
        let order : OrderEntry :=
          { amount := final_amount, owner := owner, order_id := order_id }
        let s2 := { s1 with bids := assoc_set bids1 price (queue ++ [order]) }
        .ok (transfers, insert_order s2 owner OrderNature.bid order_id price)
      else .ok (transfers, s1)
  | OrderNature.ask =>
    let matching_price_bids :=
      (s0.bids.map Prod.fst).takeWhile fun price_bid => price_bid ≥ price
    match clear_bid_levels owner price s0 amount matching_price_bids [] with
    | .err e => .err e
    | .panicked => .panicked
    | .ok (s1, final_amount, transfers) =>
      if final_amount ≠ 0 then
        let asks1 := ensure_level ask_before s1.asks price
        let queue := (assoc_get asks1 price).getD []
        let order : OrderEntry :=
          { amount := final_amount, owner := owner, order_id := order_id }
        let s2 := { s1 with asks := assoc_set asks1 price (queue ++ [order]) }
        .ok (transfers, insert_order s2 owner OrderNature.ask order_id price)
      else .ok (transfers, s1)

end MatchingEngine

/-! ## Theorems about the matching-engine functions -/

/-- C4: at a crossed level, `get_transfers` emits exactly the spec's
transfer rule. For an incoming bid the buyer receives `fill` of token 1 and
the resting seller `price_insert * fill` of token 0; for an incoming ask the
seller receives `price_insert * fill` of token 0 and the resting buyer
`fill` of token 1 plus, exactly when the level price differs, an additional
`(price_level - price_insert) * fill` of token 0; nothing else. The two
product bounds keep the u128 products from panicking. -/
theorem get_transfers_emits_transfer_rule
    (nature : OrderNature) (fill owner : Nat) (order_level : OrderEntry)
    (price_level price_insert : Nat)
    (hcross : match nature with
      | OrderNature.bid => price_level ≤ price_insert
      | OrderNature.ask => price_insert ≤ price_level)
    (hfit : price_insert * fill < U128_MOD)
    (hfit2 : (price_level - price_insert) * fill < U128_MOD) :
    MatchingEngine.get_transfers nature fill owner order_level price_level
        price_insert =
      some (match nature with
        | OrderNature.bid =>
          [{ owner := owner, amount := fill, token_idx := 1 },
           { owner := order_level.owner, amount := price_insert * fill,
             token_idx := 0 }]
        | OrderNature.ask =>
          [{ owner := order_level.owner, amount := fill, token_idx := 1 },
           { owner := owner, amount := price_insert * fill, token_idx := 0 }] ++
          (if price_level ≠ price_insert then
            [{ owner := order_level.owner,
               amount := (price_level - price_insert) * fill, token_idx := 0 }]
           else [])) := by
  cases nature with
  | bid =>
    simp only at hcross
    simp only [MatchingEngine.get_transfers]
    rw [if_pos hcross]
    unfold product_price_amount Amount.try_mul
    rw [mul_comm] at hfit
    rw [if_pos hfit]
    simp [Except.toOption, Nat.mul_comm]
  | ask =>
    simp only at hcross
    simp only [MatchingEngine.get_transfers]
    rw [if_pos hcross]
    unfold product_price_amount Amount.try_mul
    rw [mul_comm] at hfit
    rw [mul_comm] at hfit2
    rw [if_pos hfit]
    by_cases hne : price_level = price_insert
    · simp [Except.toOption, hne, Nat.mul_comm]
    · rw [if_pos hfit2]
      simp [Except.toOption, hne, Nat.mul_comm]

/-- Witness for the C4 theorem: incoming ask at price 5 against a resting
bid at level price 7, fill 2. -/
theorem get_transfers_emits_transfer_rule_witness :
    MatchingEngine.get_transfers OrderNature.ask 2 20 ⟨4, 10, 0⟩ 7 5 =
      some
        [{ owner := 10, amount := 2, token_idx := 1 },
         { owner := 20, amount := 5 * 2, token_idx := 0 },
         { owner := 10, amount := (7 - 5) * 2, token_idx := 0 }] := by
  have h := get_transfers_emits_transfer_rule OrderNature.ask 2 20 ⟨4, 10, 0⟩
    7 5 (by decide) (by norm_num [U128_MOD]) (by norm_num [U128_MOD])
  simpa using h

theorem drop_length_takeWhile {α : Type} (p : α → Bool) (l : List α) :
    l.drop (l.takeWhile p).length = l.dropWhile p := by
  induction l with
  | nil => rfl
  | cons a t ih =>
    by_cases hp : p a
    · simp [List.takeWhile_cons, List.dropWhile_cons, hp, ih]
    · simp [List.takeWhile_cons, List.dropWhile_cons, hp]

theorem dropWhile_head_false {α : Type} (p : α → Bool) :
    ∀ (l : List α) (o : α) (rest : List α),
      l.dropWhile p = o :: rest → p o = false := by
  intro l
  induction l with
  | nil => intro o rest h; simp [List.dropWhile] at h
  | cons a t ih =>
    intro o rest h
    by_cases hp : p a
    · rw [List.dropWhile_cons, if_pos hp] at h
      exact ih o rest h
    · rw [List.dropWhile_cons, if_neg hp] at h
      obtain ⟨h1, _⟩ := List.cons.injEq .. ▸ h
      cases h
      simpa using hp

theorem dropWhile_retains_after_failure {α : Type} (p : α → Bool) :
    ∀ (front : List α) (order : α) (rest : List α),
      p order = false →
      (order :: rest).IsSuffix ((front ++ order :: rest).dropWhile p) := by
  intro front
  induction front with
  | nil =>
    intro order rest hord
    rw [List.nil_append, List.dropWhile_cons, if_neg (by simp [hord])]
  | cons f front1 ih =>
    intro order rest hord
    rw [List.cons_append, List.dropWhile_cons]
    by_cases hf : p f
    · rw [if_pos hf]
      exact ih order rest hord
    · rw [if_neg hf]
      refine ⟨f :: front1, ?_⟩
      simp

/-- C8: `remove_zero_orders_from_level` deletes exactly the maximal prefix of
zero-amount records from the front of the queue — the result is the
`dropWhile` of the zero test, the deleted prefix is all-zero, the surviving
head (when any) is non-zero — and every record from a non-zero record onward
is retained in place and in order; in particular a zero-amount order behind a
non-zero-amount order stays. -/
theorem remove_zero_orders_sweeps_zero_front (queue : List OrderEntry) :
    MatchingEngine.remove_zero_orders_from_level queue =
      queue.dropWhile (fun order => order.amount == 0) ∧
    (∃ pre, queue = pre ++ MatchingEngine.remove_zero_orders_from_level queue ∧
        ∀ o ∈ pre, o.amount = 0) ∧
    (∀ o rest, MatchingEngine.remove_zero_orders_from_level queue = o :: rest →
        o.amount ≠ 0) ∧
    (∀ front order rest, queue = front ++ order :: rest → order.amount ≠ 0 →
        (order :: rest).IsSuffix
          (MatchingEngine.remove_zero_orders_from_level queue)) := by
  have hmain : MatchingEngine.remove_zero_orders_from_level queue =
      queue.dropWhile (fun order => order.amount == 0) := by
    unfold MatchingEngine.remove_zero_orders_from_level
    exact drop_length_takeWhile _ queue
  refine ⟨hmain, ?_, ?_, ?_⟩
  · refine ⟨queue.takeWhile (fun order => order.amount == 0), ?_, ?_⟩
    · rw [hmain, List.takeWhile_append_dropWhile]
    · intro o ho
      simpa using List.mem_takeWhile_imp ho
  · intro o rest h
    rw [hmain] at h
    have := dropWhile_head_false _ queue o rest h
    simpa using this
  · intro front order rest hsplit hord
    rw [hmain, hsplit]
    exact dropWhile_retains_after_failure _ front order rest (by simpa using hord)

/-- Witness for the C8 theorem: in the queue with a non-zero order in front
of a zero-amount order, the zero-amount order is retained by the sweep. -/
theorem remove_zero_orders_sweeps_zero_front_witness :
    ((⟨3, 1, 0⟩ : OrderEntry) :: [⟨0, 2, 1⟩]).IsSuffix
      (MatchingEngine.remove_zero_orders_from_level [⟨3, 1, 0⟩, ⟨0, 2, 1⟩]) :=
  (remove_zero_orders_sweeps_zero_front [⟨3, 1, 0⟩, ⟨0, 2, 1⟩]).2.2.2
    [] ⟨3, 1, 0⟩ [⟨0, 2, 1⟩] rfl (by decide)

/-- C6 counterexample: an insert whose transfer product overflows u128 makes
the engine panic (`expect("product")` in `product_price_amount`), it does not
return an error value to the caller: a bid of amount `2^127` at price
`2^64 - 1` crossing a resting ask of amount `2^127` at level price 5. -/
theorem overflowing_insert_panics_not_errors :
    MatchingEngine.insert_and_uncross_market
      ⟨1, [(0, ⟨5, OrderNature.ask, 10⟩)], [(10, [0])], [],
       [(5, [⟨2 ^ 127, 10, 0⟩])]⟩ 20 (2 ^ 127) OrderNature.bid (2 ^ 64 - 1) =
      RunResult.panicked ∧
    ∀ e : MatchingEngineError,
      MatchingEngine.insert_and_uncross_market
        ⟨1, [(0, ⟨5, OrderNature.ask, 10⟩)], [(10, [0])], [],
         [(5, [⟨2 ^ 127, 10, 0⟩])]⟩ 20 (2 ^ 127) OrderNature.bid (2 ^ 64 - 1) ≠
        RunResult.err e := by
  have h : MatchingEngine.insert_and_uncross_market
      ⟨1, [(0, ⟨5, OrderNature.ask, 10⟩)], [(10, [0])], [],
       [(5, [⟨2 ^ 127, 10, 0⟩])]⟩ 20 (2 ^ 127) OrderNature.bid (2 ^ 64 - 1) =
      RunResult.panicked := by decide
  refine ⟨h, fun e hc => ?_⟩
  rw [h] at hc
  exact RunResult.noConfusion hc

/-- C6 amended: an overflowing token-amount product makes the checked
primitive `try_mul` return the `Overflow` arithmetic error, but
`product_price_amount` turns it into a panic (`expect`), so the engine call
aborts instead of returning an error value; no state is persisted because
writes only happen at flush. -/
theorem try_mul_overflow_errors_and_product_panics (count price : Nat)
    (h : U128_MOD ≤ count * price) :
    Amount.try_mul count price = Except.error ArithmeticError.overflow ∧
    product_price_amount price count = none := by
  unfold product_price_amount Amount.try_mul
  rw [if_neg (not_lt.mpr h)]
  exact ⟨rfl, rfl⟩

/-- Witness for the amended C6 theorem at `count = 2^127`, `price = 2`. -/
theorem try_mul_overflow_errors_and_product_panics_witness :
    Amount.try_mul (2 ^ 127) 2 = Except.error ArithmeticError.overflow ∧
    product_price_amount 2 (2 ^ 127) = none :=
  try_mul_overflow_errors_and_product_panics (2 ^ 127) 2 (by norm_num [U128_MOD])

/-- C5 evidence: a fully filled resting order is removed from the owner's
`account_info` set but stays in the `orders` map, so a later lookup (and
`check_order_id`) still finds it. Owner 10 rests an ask of amount 1 at price
5 (order id 0); owner 20 inserts a fully crossing bid. -/
theorem fully_filled_order_stays_in_orders :
    MatchingEngine.insert_and_uncross_market
      ⟨1, [(0, ⟨5, OrderNature.ask, 10⟩)], [(10, [0])], [],
       [(5, [⟨1, 10, 0⟩])]⟩ 20 1 OrderNature.bid 5 =
      RunResult.ok
        ([{ owner := 20, amount := 1, token_idx := 1 },
          { owner := 10, amount := 5, token_idx := 0 }],
         ⟨2, [(0, ⟨5, OrderNature.ask, 10⟩)], [(10, [])], [], []⟩) ∧
    assoc_get
        (MatchingEngine.mk 2 [(0, ⟨5, OrderNature.ask, 10⟩)] [(10, [])] []
          []).orders 0 =
      some ⟨5, OrderNature.ask, 10⟩ ∧
    MatchingEngine.check_order_id
        ⟨2, [(0, ⟨5, OrderNature.ask, 10⟩)], [(10, [])], [], []⟩ 0 10 =
      RunResult.ok () ∧
    assoc_get
        (MatchingEngine.mk 2 [(0, ⟨5, OrderNature.ask, 10⟩)] [(10, [])] []
          []).account_info 10 =
      some [] := by
  refine ⟨by decide, by decide, by decide, by decide⟩

theorem ensure_level_cases (before : Nat → Nat → Bool) :
    ∀ (m : List (Nat × List OrderEntry)) (key : Nat),
      ensure_level before m key = m ∨
      assoc_get (ensure_level before m key) key = some [] := by
  intro m
  induction m with
  | nil =>
    intro key
    right
    simp [ensure_level, assoc_get]
  | cons kv rest ih =>
    intro key
    obtain ⟨k, v⟩ := kv
    by_cases hk : k = key
    · left
      simp [ensure_level, hk]
    · by_cases hb : before key k
      · right
        simp [ensure_level, hk, hb, assoc_get]
      · rcases ih key with h | h
        · left
          simp [ensure_level, hk, hb, h]
        · right
          simp [ensure_level, hk, hb, assoc_get, h]

theorem assoc_set_keys {β : Type} :
    ∀ (m : List (Nat × β)) (k : Nat) (v : β),
      (assoc_set m k v).map Prod.fst = m.map Prod.fst := by
  intro m
  induction m with
  | nil => intro k v; rfl
  | cons kv rest ih =>
    intro k v
    obtain ⟨k0, v0⟩ := kv
    by_cases hk : k0 = k
    · simp [assoc_set, hk]
    · simp [assoc_set, hk, ih]

theorem remove_order_id_fields (s : MatchingEngine) (owner order_id : Nat)
    (s2 : MatchingEngine)
    (h : MatchingEngine.remove_order_id s owner order_id = RunResult.ok s2) :
    s2.bids = s.bids ∧ s2.asks = s.asks ∧ s2.orders = s.orders ∧
    s2.next_order_number = s.next_order_number := by
  unfold MatchingEngine.remove_order_id at h
  cases hget : assoc_get s.account_info owner with
  | none => rw [hget] at h; exact absurd h (by simp)
  | some ids =>
    rw [hget] at h
    cases h
    exact ⟨rfl, rfl, rfl, rfl⟩

theorem modify_order_level_nil (order_id : Nat) (cancel_amount : ModifyAmount) :
    MatchingEngine.modify_order_level [] order_id cancel_amount =
      RunResult.err MatchingEngineError.order_not_present := rfl

/-- C9: `modify_order` never changes the set of price keys of either book
side — in particular, a price level whose last order was reduced to zero by
a cancel or modify keeps its (now empty) entry — in contrast to
`insert_and_uncross_market`, which removes a level whose queue becomes
empty, shown on a concrete full fill. -/
theorem modify_keeps_price_levels_insert_removes_them :
    (∀ (s : MatchingEngine) (order_id : Nat) (cancel_amount : ModifyAmount)
        (t : Transfer) (s1 : MatchingEngine),
      MatchingEngine.modify_order s order_id cancel_amount =
        RunResult.ok (t, s1) →
      s1.bids.map Prod.fst = s.bids.map Prod.fst ∧
      s1.asks.map Prod.fst = s.asks.map Prod.fst) ∧
    (MatchingEngine.modify_order
        ⟨1, [(0, ⟨5, OrderNature.bid, 10⟩)], [(10, [0])], [(5, [⟨3, 10, 0⟩])],
         []⟩ 0 ModifyAmount.all =
      RunResult.ok
        ({ owner := 10, amount := 15, token_idx := 0 },
         ⟨1, [(0, ⟨5, OrderNature.bid, 10⟩)], [(10, [])], [(5, [])], []⟩)) ∧
    (MatchingEngine.insert_and_uncross_market
        ⟨3, [(2, ⟨5, OrderNature.ask, 11⟩)], [(11, [2])], [],
         [(5, [⟨1, 11, 2⟩])]⟩ 21 1 OrderNature.bid 5 =
      RunResult.ok
        ([{ owner := 21, amount := 1, token_idx := 1 },
          { owner := 11, amount := 5, token_idx := 0 }],
         ⟨4, [(2, ⟨5, OrderNature.ask, 11⟩)], [(11, [])], [], []⟩)) := by
  refine ⟨?_, by decide, by decide⟩
  intro s order_id cancel_amount t s1 h
  cases hkb : assoc_get s.orders order_id with
  | none =>
    simp only [MatchingEngine.modify_order, hkb] at h
    exact RunResult.noConfusion h
  | some kb =>
    obtain ⟨price, nat, owner⟩ := kb
    cases nat with
    | bid =>
      simp only [MatchingEngine.modify_order, hkb] at h
      rcases ensure_level_cases bid_before s.bids price with hens | hens
      · rw [hens] at h
        cases hml : MatchingEngine.modify_order_level
            ((assoc_get s.bids price).getD []) order_id cancel_amount with
        | err e => rw [hml] at h; simp at h
        | panicked => rw [hml] at h; simp at h
        | ok res =>
          obtain ⟨queue1, corr, remove_flag⟩ := res
          rw [hml] at h
          cases remove_flag with
          | true =>
            simp only [if_true] at h
            cases hro : MatchingEngine.remove_order_id
                { s with bids := assoc_set s.bids price queue1 } owner
                order_id with
            | err e => rw [hro] at h; simp [RunResult.bind] at h
            | panicked => rw [hro] at h; simp [RunResult.bind] at h
            | ok s2 =>
              rw [hro] at h
              simp only [RunResult.bind] at h
              cases hpp : product_price_amount price corr with
              | none => rw [hpp] at h; simp at h
              | some c =>
                rw [hpp] at h
                cases h
                obtain ⟨hb, ha, _, _⟩ := remove_order_id_fields _ _ _ _ hro
                constructor
                · rw [hb]
                  exact assoc_set_keys s.bids price queue1
                · rw [ha]
          | false =>
            simp only [if_false] at h
            simp only [RunResult.bind] at h
            cases hpp : product_price_amount price corr with
            | none => rw [hpp] at h; simp at h
            | some c =>
              rw [hpp] at h
              cases h
              exact ⟨assoc_set_keys s.bids price queue1, rfl⟩
      · rw [hens] at h
        simp only [Option.getD_some] at h
        rw [modify_order_level_nil] at h
        simp at h
    | ask =>
      simp only [MatchingEngine.modify_order, hkb] at h
      rcases ensure_level_cases ask_before s.asks price with hens | hens
      · rw [hens] at h
        cases hml : MatchingEngine.modify_order_level
            ((assoc_get s.asks price).getD []) order_id cancel_amount with
        | err e => rw [hml] at h; simp at h
        | panicked => rw [hml] at h; simp at h
        | ok res =>
          obtain ⟨queue1, corr, remove_flag⟩ := res
          rw [hml] at h
          cases remove_flag with
          | true =>
            simp only [if_true] at h
            cases hro : MatchingEngine.remove_order_id
                { s with asks := assoc_set s.asks price queue1 } owner
                order_id with
            | err e => rw [hro] at h; simp [RunResult.bind] at h
            | panicked => rw [hro] at h; simp [RunResult.bind] at h
            | ok s2 =>
              rw [hro] at h
              simp only [RunResult.bind] at h
              cases h
              obtain ⟨hb, ha, _, _⟩ := remove_order_id_fields _ _ _ _ hro
              constructor
              · rw [hb]
              · rw [ha]
                exact assoc_set_keys s.asks price queue1
          | false =>
            simp only [if_false] at h
            simp only [RunResult.bind] at h
            cases h
            exact ⟨rfl, assoc_set_keys s.asks price queue1⟩
      · rw [hens] at h
        simp only [Option.getD_some] at h
        rw [modify_order_level_nil] at h
        simp at h

/-- Witness for the C9 theorem: a concrete cancel-all on the last order of
bid level 5 leaves the price keys of both sides unchanged. -/
theorem modify_keeps_price_levels_insert_removes_them_witness :
    (MatchingEngine.mk 1 [(0, ⟨5, OrderNature.bid, 10⟩)] [(10, [])]
        [(5, [])] []).bids.map Prod.fst =
      (MatchingEngine.mk 1 [(0, ⟨5, OrderNature.bid, 10⟩)] [(10, [0])]
        [(5, [⟨3, 10, 0⟩])] []).bids.map Prod.fst ∧
    (MatchingEngine.mk 1 [(0, ⟨5, OrderNature.bid, 10⟩)] [(10, [])]
        [(5, [])] []).asks.map Prod.fst =
      (MatchingEngine.mk 1 [(0, ⟨5, OrderNature.bid, 10⟩)] [(10, [0])]
        [(5, [⟨3, 10, 0⟩])] []).asks.map Prod.fst :=
  modify_keeps_price_levels_insert_removes_them.1
    ⟨1, [(0, ⟨5, OrderNature.bid, 10⟩)], [(10, [0])], [(5, [⟨3, 10, 0⟩])], []⟩
    0 ModifyAmount.all { owner := 10, amount := 15, token_idx := 0 }
    ⟨1, [(0, ⟨5, OrderNature.bid, 10⟩)], [(10, [])], [(5, [])], []⟩ (by decide)

/-! ## Lemmas for the zero-amount insert claim -/

/-- All records resting in the queues of one book side, in order. -/
def book_entries (side : List (Nat × List OrderEntry)) : List OrderEntry :=
  (side.map Prod.snd).flatten

theorem assoc_get_assoc_set {β : Type} :
    ∀ (m : List (Nat × β)) (k x : Nat) (v : β),
      assoc_get (assoc_set m k v) x =
        if x = k ∧ (assoc_get m k).isSome then some v else assoc_get m x := by
  intro m
  induction m with
  | nil =>
    intro k x v
    simp [assoc_set, assoc_get]
  | cons kv rest ih =>
    intro k x v
    obtain ⟨k0, v0⟩ := kv
    by_cases hk : k0 = k
    · subst hk
      by_cases hx : k0 = x
      · subst hx
        simp [assoc_set, assoc_get]
      · simp [assoc_set, assoc_get, hx, Ne.symm hx]
    · by_cases hx : k0 = x
      · subst hx
        simp [assoc_set, assoc_get, hk]
      · simp [assoc_set, assoc_get, hk, hx, ih]

/-- One account map shrinks into another: every surviving binding existed and
lost no member gained. -/
def account_shrinks (a b : List (Nat × List Nat)) : Prop :=
  ∀ own ids, assoc_get a own = some ids →
    ∃ ids0, assoc_get b own = some ids0 ∧ ∀ i ∈ ids, i ∈ ids0

theorem account_shrinks_refl (a : List (Nat × List Nat)) :
    account_shrinks a a :=
  fun _ ids h => ⟨ids, h, fun _ hi => hi⟩

theorem account_shrinks_trans {a b c : List (Nat × List Nat)}
    (hab : account_shrinks a b) (hbc : account_shrinks b c) :
    account_shrinks a c := by
  intro own ids h
  obtain ⟨ids1, hb, hsub1⟩ := hab own ids h
  obtain ⟨ids2, hc, hsub2⟩ := hbc own ids1 hb
  exact ⟨ids2, hc, fun i hi => hsub2 i (hsub1 i hi)⟩

theorem remove_order_id_account_shrinks (s : MatchingEngine)
    (owner order_id : Nat) (s2 : MatchingEngine)
    (h : MatchingEngine.remove_order_id s owner order_id = RunResult.ok s2) :
    account_shrinks s2.account_info s.account_info := by
  unfold MatchingEngine.remove_order_id at h
  cases hget : assoc_get s.account_info owner with
  | none => rw [hget] at h; exact absurd h (by simp)
  | some ids =>
    rw [hget] at h
    cases h
    intro own ids1 h1
    simp only at h1
    rw [assoc_get_assoc_set] at h1
    by_cases hc : own = owner ∧ (assoc_get s.account_info owner).isSome
    · rw [if_pos hc] at h1
      cases h1
      refine ⟨ids, hc.1 ▸ hget, ?_⟩
      intro i hi
      exact List.mem_of_mem_filter hi
    · rw [if_neg hc] at h1
      exact ⟨ids1, h1, fun _ hi => hi⟩

theorem remove_order_ids_fields :
    ∀ (rm : List (Nat × Nat)) (s s2 : MatchingEngine),
      MatchingEngine.remove_order_ids s rm = RunResult.ok s2 →
      s2.bids = s.bids ∧ s2.asks = s.asks ∧ s2.orders = s.orders ∧
      s2.next_order_number = s.next_order_number ∧
      account_shrinks s2.account_info s.account_info := by
  intro rm
  induction rm with
  | nil =>
    intro s s2 h
    cases h
    exact ⟨rfl, rfl, rfl, rfl, account_shrinks_refl _⟩
  | cons pr rest ih =>
    intro s s2 h
    obtain ⟨owner, order_id⟩ := pr
    simp only [MatchingEngine.remove_order_ids] at h
    cases hro : MatchingEngine.remove_order_id s owner order_id with
    | err e => rw [hro] at h; exact absurd h (by simp)
    | panicked => rw [hro] at h; exact absurd h (by simp)
    | ok s1 =>
      rw [hro] at h
      obtain ⟨hb, ha, ho, hn, hacc⟩ := ih s1 s2 h
      obtain ⟨hb1, ha1, ho1, hn1⟩ := remove_order_id_fields _ _ _ _ hro
      exact ⟨hb.trans hb1, ha.trans ha1, ho.trans ho1, hn.trans hn1,
        account_shrinks_trans hacc (remove_order_id_account_shrinks _ _ _ _ hro)⟩

theorem book_entries_ensure_level (before : Nat → Nat → Bool) :
    ∀ (m : List (Nat × List OrderEntry)) (p : Nat),
      book_entries (ensure_level before m p) = book_entries m := by
  intro m
  induction m with
  | nil => intro p; simp [ensure_level, book_entries]
  | cons kv rest ih =>
    intro p
    obtain ⟨k, v⟩ := kv
    by_cases hk : k = p
    · simp [ensure_level, hk]
    · by_cases hb : before p k
      · simp [ensure_level, hk, hb, book_entries]
      · simp [ensure_level, hk, hb, book_entries]
        have := ih p
        simp [book_entries] at this
        rw [this]

theorem book_entries_assoc_remove {e : OrderEntry} :
    ∀ (m : List (Nat × List OrderEntry)) (p : Nat),
      e ∈ book_entries (assoc_remove m p) → e ∈ book_entries m := by
  intro m
  induction m with
  | nil => intro p h; simpa [assoc_remove] using h
  | cons kv rest ih =>
    intro p h
    obtain ⟨k, v⟩ := kv
    by_cases hk : k = p
    · simp only [assoc_remove, if_pos hk] at h
      simp [book_entries] at h ⊢
      exact Or.inr h
    · simp only [assoc_remove, if_neg hk] at h
      simp [book_entries] at h ⊢
      rcases h with h | h
      · exact Or.inl h
      · exact Or.inr (by simpa [book_entries] using ih p (by simpa [book_entries] using h))

theorem book_entries_assoc_set {e : OrderEntry} :
    ∀ (m : List (Nat × List OrderEntry)) (p : Nat) (q : List OrderEntry),
      (∀ x ∈ q, x ∈ (assoc_get m p).getD []) →
      e ∈ book_entries (assoc_set m p q) → e ∈ book_entries m := by
  intro m
  induction m with
  | nil => intro p q _ h; simpa [assoc_set] using h
  | cons kv rest ih =>
    intro p q hq h
    obtain ⟨k, v⟩ := kv
    by_cases hk : k = p
    · subst hk
      simp only [assoc_set, if_pos rfl] at h
      simp [book_entries] at h ⊢
      rcases h with h | h
      · have := hq e h
        simp [assoc_get] at this
        exact Or.inl this
      · exact Or.inr h
    · simp only [assoc_set, if_neg hk] at h
      simp [book_entries] at h ⊢
      rcases h with h | h
      · exact Or.inl h
      · refine Or.inr ?_
        have hq1 : ∀ x ∈ q, x ∈ (assoc_get rest p).getD [] := by
          intro x hx
          have := hq x hx
          simpa [assoc_get, hk] using this
        simpa [book_entries] using ih p q hq1 (by simpa [book_entries] using h)

theorem level_clearing_zero (owner : Nat) (nature : OrderNature)
    (price_level price_insert : Nat) (queue : List OrderEntry) :
    ∃ rm, MatchingEngine.level_clearing owner nature price_level price_insert
        queue 0 =
      some (MatchingEngine.remove_zero_orders_from_level queue, 0, [], rm) := by
  cases queue with
  | nil => exact ⟨[], rfl⟩
  | cons o rest =>
    refine ⟨if o.amount = 0 then [(o.owner, o.order_id)] else [], ?_⟩
    simp [MatchingEngine.level_clearing, MatchingEngine.level_clearing_loop,
      Nat.min_zero, Nat.sub_zero]

theorem sweep_mem {e : OrderEntry} {queue : List OrderEntry}
    (h : e ∈ MatchingEngine.remove_zero_orders_from_level queue) :
    e ∈ queue := by
  unfold MatchingEngine.remove_zero_orders_from_level at h
  exact List.drop_subset _ _ h

theorem clear_ask_levels_zero (owner price_insert : Nat) :
    ∀ (levels : List Nat) (s : MatchingEngine) (transfers : List Transfer)
      (s2 : MatchingEngine) (amount1 : Nat) (tr : List Transfer),
      MatchingEngine.clear_ask_levels owner price_insert s 0 levels transfers =
        RunResult.ok (s2, amount1, tr) →
      tr = transfers ∧ amount1 = 0 ∧
      s2.next_order_number = s.next_order_number ∧
      s2.orders = s.orders ∧ s2.bids = s.bids ∧
      account_shrinks s2.account_info s.account_info ∧
      (∀ e ∈ book_entries s2.asks, e ∈ book_entries s.asks) := by
  intro levels
  cases levels with
  | nil =>
    intro s transfers s2 amount1 tr h
    simp only [MatchingEngine.clear_ask_levels] at h
    cases h
    exact ⟨rfl, rfl, rfl, rfl, rfl, account_shrinks_refl _, fun _ he => he⟩
  | cons p rest =>
    intro s transfers s2 amount1 tr h
    simp only [MatchingEngine.clear_ask_levels] at h
    obtain ⟨rm, hlc⟩ := level_clearing_zero owner OrderNature.bid p
      price_insert ((assoc_get (ensure_level ask_before s.asks p) p).getD [])
    rw [hlc] at h
    dsimp only at h
    set queue1 := MatchingEngine.remove_zero_orders_from_level
      ((assoc_get (ensure_level ask_before s.asks p) p).getD []) with hq1
    set asks3 := (if queue1.length = 0 then
        assoc_remove (assoc_set (ensure_level ask_before s.asks p) p queue1) p
      else assoc_set (ensure_level ask_before s.asks p) p queue1) with hasks3
    cases hro : MatchingEngine.remove_order_ids { s with asks := asks3 }
        rm with
    | err e => rw [hro] at h; exact absurd h (by simp)
    | panicked => rw [hro] at h; exact absurd h (by simp)
    | ok s3 =>
      rw [hro] at h
      simp only [if_pos rfl] at h
      cases h
      obtain ⟨hb, ha, ho, hn, hacc⟩ := remove_order_ids_fields _ _ _ hro
      have hsubset : ∀ e ∈ book_entries s2.asks, e ∈ book_entries s.asks := by
        intro e he
        rw [ha] at he
        simp only at he
        have hset : ∀ e1 ∈ book_entries
            (assoc_set (ensure_level ask_before s.asks p) p queue1),
            e1 ∈ book_entries s.asks := by
          intro e1 he1
          have := book_entries_assoc_set (ensure_level ask_before s.asks p) p
            queue1 (fun x hx => sweep_mem (hq1 ▸ hx)) he1
          rwa [book_entries_ensure_level] at this
        rw [hasks3] at he
        by_cases hlen : queue1.length = 0
        · rw [if_pos hlen] at he
          exact hset e (book_entries_assoc_remove _ p he)
        · rw [if_neg hlen] at he
          exact hset e he
      refine ⟨by rw [List.append_nil], rfl, hn, ho, hb, ?_, hsubset⟩
      simpa using hacc

theorem clear_bid_levels_zero (owner price_insert : Nat) :
    ∀ (levels : List Nat) (s : MatchingEngine) (transfers : List Transfer)
      (s2 : MatchingEngine) (amount1 : Nat) (tr : List Transfer),
      MatchingEngine.clear_bid_levels owner price_insert s 0 levels transfers =
        RunResult.ok (s2, amount1, tr) →
      tr = transfers ∧ amount1 = 0 ∧
      s2.next_order_number = s.next_order_number ∧
      s2.orders = s.orders ∧ s2.asks = s.asks ∧
      account_shrinks s2.account_info s.account_info ∧
      (∀ e ∈ book_entries s2.bids, e ∈ book_entries s.bids) := by
  intro levels
  cases levels with
  | nil =>
    intro s transfers s2 amount1 tr h
    simp only [MatchingEngine.clear_bid_levels] at h
    cases h
    exact ⟨rfl, rfl, rfl, rfl, rfl, account_shrinks_refl _, fun _ he => he⟩
  | cons p rest =>
    intro s transfers s2 amount1 tr h
    simp only [MatchingEngine.clear_bid_levels] at h
    obtain ⟨rm, hlc⟩ := level_clearing_zero owner OrderNature.ask p
      price_insert ((assoc_get (ensure_level bid_before s.bids p) p).getD [])
    rw [hlc] at h
    dsimp only at h
    set queue1 := MatchingEngine.remove_zero_orders_from_level
      ((assoc_get (ensure_level bid_before s.bids p) p).getD []) with hq1
    set bids3 := (if queue1.length = 0 then
        assoc_remove (assoc_set (ensure_level bid_before s.bids p) p queue1) p
      else assoc_set (ensure_level bid_before s.bids p) p queue1) with hbids3
    cases hro : MatchingEngine.remove_order_ids { s with bids := bids3 }
        rm with
    | err e => rw [hro] at h; exact absurd h (by simp)
    | panicked => rw [hro] at h; exact absurd h (by simp)
    | ok s3 =>
      rw [hro] at h
      simp only [if_pos rfl] at h
      cases h
      obtain ⟨hb, ha, ho, hn, hacc⟩ := remove_order_ids_fields _ _ _ hro
      have hsubset : ∀ e ∈ book_entries s2.bids, e ∈ book_entries s.bids := by
        intro e he
        rw [hb] at he
        simp only at he
        have hset : ∀ e1 ∈ book_entries
            (assoc_set (ensure_level bid_before s.bids p) p queue1),
            e1 ∈ book_entries s.bids := by
          intro e1 he1
          have := book_entries_assoc_set (ensure_level bid_before s.bids p) p
            queue1 (fun x hx => sweep_mem (hq1 ▸ hx)) he1
          rwa [book_entries_ensure_level] at this
        rw [hbids3] at he
        by_cases hlen : queue1.length = 0
        · rw [if_pos hlen] at he
          exact hset e (book_entries_assoc_remove _ p he)
        · rw [if_neg hlen] at he
          exact hset e he
      refine ⟨by rw [List.append_nil], rfl, hn, ho, ha, ?_, hsubset⟩
      simpa using hacc

/-- C10: an authenticated insert of amount zero produces no transfers and
pushes no resting order — `orders` is unchanged, every surviving account id
existed before, the book queues gain no entry — yet `next_order_number` is
still incremented by exactly one, so the order id is consumed. -/
theorem zero_amount_insert_consumes_id_only (s : MatchingEngine)
    (owner : Nat) (nature : OrderNature) (price : Nat) (tr : List Transfer)
    (s1 : MatchingEngine)
    (h : MatchingEngine.insert_and_uncross_market s owner 0 nature price =
      RunResult.ok (tr, s1)) :
    tr = [] ∧
    s1.next_order_number = s.next_order_number + 1 ∧
    s1.orders = s.orders ∧
    (∀ own ids, assoc_get s1.account_info own = some ids →
      ∃ ids0, assoc_get s.account_info own = some ids0 ∧ ∀ i ∈ ids, i ∈ ids0) ∧
    (∀ e ∈ book_entries s1.bids, e ∈ book_entries s.bids) ∧
    (∀ e ∈ book_entries s1.asks, e ∈ book_entries s.asks) := by
  cases nature with
  | bid =>
    simp only [MatchingEngine.insert_and_uncross_market,
      MatchingEngine.get_new_order_id] at h
    cases hcl : MatchingEngine.clear_ask_levels owner price
        { next_order_number := s.next_order_number + 1, orders := s.orders,
          account_info := s.account_info, bids := s.bids, asks := s.asks }
        0 (List.takeWhile (fun price_ask => decide (price_ask ≤ price))
            (List.map Prod.fst s.asks)) [] with
    | err e => rw [hcl] at h; exact absurd h (by simp)
    | panicked => rw [hcl] at h; exact absurd h (by simp)
    | ok res =>
      obtain ⟨s2, final_amount, transfers⟩ := res
      rw [hcl] at h
      dsimp only at h
      obtain ⟨htr, hfa, hn, ho, hb, hacc, hasks⟩ :=
        clear_ask_levels_zero owner price _ _ _ _ _ _ hcl
      subst hfa
      rw [if_neg (by simp : ¬ ((0 : Nat) ≠ 0))] at h
      cases h
      refine ⟨htr, hn, ho, hacc, ?_, hasks⟩
      intro e he
      rw [hb] at he
      exact he
  | ask =>
    simp only [MatchingEngine.insert_and_uncross_market,
      MatchingEngine.get_new_order_id] at h
    cases hcl : MatchingEngine.clear_bid_levels owner price
        { next_order_number := s.next_order_number + 1, orders := s.orders,
          account_info := s.account_info, bids := s.bids, asks := s.asks }
        0 (List.takeWhile (fun price_bid => decide (price_bid ≥ price))
            (List.map Prod.fst s.bids)) [] with
    | err e => rw [hcl] at h; exact absurd h (by simp)
    | panicked => rw [hcl] at h; exact absurd h (by simp)
    | ok res =>
      obtain ⟨s2, final_amount, transfers⟩ := res
      rw [hcl] at h
      dsimp only at h
      obtain ⟨htr, hfa, hn, ho, ha, hacc, hbids⟩ :=
        clear_bid_levels_zero owner price _ _ _ _ _ _ hcl
      subst hfa
      rw [if_neg (by simp : ¬ ((0 : Nat) ≠ 0))] at h
      cases h
      refine ⟨htr, hn, ho, hacc, hbids, ?_⟩
      intro e he
      rw [ha] at he
      exact he

/-- Witness for the C10 theorem: a zero-amount bid against a book with one
resting ask at price 5. -/
theorem zero_amount_insert_consumes_id_only_witness :
    ([] : List Transfer) = [] ∧
    (MatchingEngine.mk 8 [(0, ⟨5, OrderNature.ask, 10⟩)] [(10, [0])] []
        [(5, [⟨2, 10, 0⟩])]).next_order_number =
      (MatchingEngine.mk 7 [(0, ⟨5, OrderNature.ask, 10⟩)] [(10, [0])] []
        [(5, [⟨2, 10, 0⟩])]).next_order_number + 1 ∧
    (MatchingEngine.mk 8 [(0, ⟨5, OrderNature.ask, 10⟩)] [(10, [0])] []
        [(5, [⟨2, 10, 0⟩])]).orders =
      (MatchingEngine.mk 7 [(0, ⟨5, OrderNature.ask, 10⟩)] [(10, [0])] []
        [(5, [⟨2, 10, 0⟩])]).orders ∧
    (∀ own ids,
      assoc_get (MatchingEngine.mk 8 [(0, ⟨5, OrderNature.ask, 10⟩)]
          [(10, [0])] [] [(5, [⟨2, 10, 0⟩])]).account_info own = some ids →
      ∃ ids0,
        assoc_get (MatchingEngine.mk 7 [(0, ⟨5, OrderNature.ask, 10⟩)]
            [(10, [0])] [] [(5, [⟨2, 10, 0⟩])]).account_info own = some ids0 ∧
        ∀ i ∈ ids, i ∈ ids0) ∧
    (∀ e ∈ book_entries (MatchingEngine.mk 8 [(0, ⟨5, OrderNature.ask, 10⟩)]
        [(10, [0])] [] [(5, [⟨2, 10, 0⟩])]).bids,
      e ∈ book_entries (MatchingEngine.mk 7 [(0, ⟨5, OrderNature.ask, 10⟩)]
        [(10, [0])] [] [(5, [⟨2, 10, 0⟩])]).bids) ∧
    (∀ e ∈ book_entries (MatchingEngine.mk 8 [(0, ⟨5, OrderNature.ask, 10⟩)]
        [(10, [0])] [] [(5, [⟨2, 10, 0⟩])]).asks,
      e ∈ book_entries (MatchingEngine.mk 7 [(0, ⟨5, OrderNature.ask, 10⟩)]
        [(10, [0])] [] [(5, [⟨2, 10, 0⟩])]).asks) :=
  zero_amount_insert_consumes_id_only
    ⟨7, [(0, ⟨5, OrderNature.ask, 10⟩)], [(10, [0])], [], [(5, [⟨2, 10, 0⟩])]⟩
    20 OrderNature.bid 5 []
    ⟨8, [(0, ⟨5, OrderNature.ask, 10⟩)], [(10, [0])], [], [(5, [⟨2, 10, 0⟩])]⟩
    (by decide)
